import Mathlib

/-!
# Verification of the DockPiler core (sln parser, vcxproj resolver, library
# mapper, CMake generator)

This file gives a shallow embedding of the Python sources
`scripts/sln_parser.py`, `scripts/vcxproj_parser.py`,
`scripts/library_mapper.py` and `scripts/cmake_generator.py`, and proves or
refutes the specified properties of those functions.

Python strings are modelled as Lean `String` (`List Char` underneath); the
Python string primitives used by the sources (`lower`, `strip`, `replace`,
`split`, `in`, slicing, `sorted`) are modelled for the ASCII range that the
sources manipulate.  Python `dict`s keyed by strings are modelled as
association lists with insertion-order semantics, and Python `set`s whose only
observation is `sorted(list(s))` are modelled by first-occurrence
deduplication followed by sorting.
-/

namespace DockPiler

set_option maxRecDepth 40000

/-! ## Python string primitives -/

/-- The characters that Python's default `str.strip` removes. -/
def pyWhitespace (c : Char) : Bool :=
  c = ' ' || c = '\t' || c = '\n' || c = '\r' || c = '\x0b' || c = '\x0c'

/-- `str.lower` (ASCII range, which is all the sources use). -/
def lowerChars (l : List Char) : List Char := l.map Char.toLower

def pyLower (s : String) : String := ⟨lowerChars s.data⟩

/-- `str.upper` (ASCII range). -/
def upperChars (l : List Char) : List Char := l.map Char.toUpper

def pyUpper (s : String) : String := ⟨upperChars s.data⟩

/-- `str.strip()` with no argument: drop leading and trailing whitespace. -/
def stripChars (l : List Char) : List Char :=
  ((l.dropWhile pyWhitespace).reverse.dropWhile pyWhitespace).reverse

def pyStrip (s : String) : String := ⟨stripChars s.data⟩

/-- Does `p` occur as a prefix of `l`? -/
def startsWithChars : List Char → List Char → Bool
  | [], _ => true
  | _ :: _, [] => false
  | p :: ps, c :: cs => p = c && startsWithChars ps cs

/-- Does `pat` occur as a (contiguous) substring of `l`?  Models Python's
`pat in s`. -/
def occursIn (pat : List Char) : List Char → Bool
  | [] => startsWithChars pat []
  | c :: cs => startsWithChars pat (c :: cs) || occursIn pat cs

/-- `pat in s` for Python strings. -/
def pyContains (s pat : String) : Bool := occursIn pat.data s.data

/-- `s.startswith(pat)`. -/
def pyStartsWith (s pat : String) : Bool := startsWithChars pat.data s.data

/-- `s.endswith(pat)`. -/
def pyEndsWith (s pat : String) : Bool :=
  startsWithChars pat.data.reverse s.data.reverse

/-- Work loop of `str.replace`: scan left to right, replace non-overlapping
occurrences, never rescan the replacement text.  The `Nat` is fuel (one unit
per character position visited), kept structural so that the kernel can
evaluate the definition; `fuel = l.length` always suffices because every step
consumes at least one character. -/
def replaceFuel (pat repl : List Char) : Nat → List Char → List Char
  | 0, l => l
  | _ + 1, [] => []
  | n + 1, c :: cs =>
    if pat ≠ [] ∧ startsWithChars pat (c :: cs) then
      repl ++ replaceFuel pat repl n ((c :: cs).drop pat.length)
    else
      c :: replaceFuel pat repl n cs

/-- `s.replace(pat, repl)` on character lists. -/
def replaceChars (pat repl : List Char) (l : List Char) : List Char :=
  replaceFuel pat repl l.length l

/-- `s.replace(pat, repl)`. -/
def pyReplace (s pat repl : String) : String :=
  ⟨replaceChars pat.data repl.data s.data⟩

/-- `s[n:]`. -/
def pyDropLeft (s : String) (n : Nat) : String := ⟨s.data.drop n⟩

/-- The suffix of `l` after the last occurrence of `sep`
(`l.split(sep)[-1]`). -/
def afterLast (sep : Char) (l : List Char) : List Char :=
  l.foldl (fun acc c => if c = sep then [] else acc ++ [c]) []

/-- The prefix of `l` before the last occurrence of `sep`
(`l.rsplit(sep, 1)[0]` when `sep` occurs). -/
def beforeLast (sep : Char) (l : List Char) : List Char :=
  (afterLast sep l.reverse).reverse

/-- Stable insertion of `x` into a run sorted by the strict order `lt`:
`x` goes before the first element not strictly below it.  Folding this over a
list yields exactly Python's stable ascending sort. -/
def insertStable (lt : α → α → Bool) (x : α) : List α → List α
  | [] => [x]
  | y :: ys => if lt y x then y :: insertStable lt x ys else x :: y :: ys

/-- Python's `sorted` (stable, ascending w.r.t. the strict order `lt`). -/
def pySortBy (lt : α → α → Bool) : List α → List α
  | [] => []
  | x :: xs => insertStable lt x (pySortBy lt xs)

/-- Python's `<` on strings: lexicographic comparison by code point. -/
def lexLt : List Char → List Char → Bool
  | [], [] => false
  | [], _ :: _ => true
  | _ :: _, [] => false
  | a :: as, b :: bs => a.toNat < b.toNat || (a = b && lexLt as bs)

def strLt (a b : String) : Bool := lexLt a.data b.data

/-- `sorted` on strings. -/
def pySortedStr (l : List String) : List String :=
  pySortBy strLt l

/-- Adding to a Python `set` that is later only observed through
`sorted(list(s))`: keep the first occurrence. -/
def insertIfAbsent (l : List String) (x : String) : List String :=
  if l.contains x then l else l ++ [x]

/-- First-occurrence deduplication (a Python `set` built up by iterated
`add`, observed as an unordered collection of its distinct elements). -/
def pyDedupFirst (l : List String) : List String := l.foldl insertIfAbsent []

/-! ## `library_mapper.py` — `LibraryMapper` -/

/-- `LibraryMapper.LIBRARY_MAP`, in source order
(`'windows_name': 'mingw_name'`, `none` meaning "not available"). -/
def LIBRARY_MAP : List (String × Option String) := [
  ("kernel32", some "kernel32"),
  ("kernel32.lib", some "kernel32"),
  ("user32", some "user32"),
  ("user32.lib", some "user32"),
  ("gdi32", some "gdi32"),
  ("gdi32.lib", some "gdi32"),
  ("ntdll", some "ntdll"),
  ("ntdll.lib", some "ntdll"),
  ("ws2_32", some "ws2_32"),
  ("ws2_32.lib", some "ws2_32"),
  ("wsock32", some "wsock32"),
  ("wsock32.lib", some "wsock32"),
  ("iphlpapi", some "iphlpapi"),
  ("iphlpapi.lib", some "iphlpapi"),
  ("winhttp", some "winhttp"),
  ("winhttp.lib", some "winhttp"),
  ("wininet", some "wininet"),
  ("wininet.lib", some "wininet"),
  ("mswsock", some "mswsock"),
  ("mswsock.lib", some "mswsock"),
  ("dnsapi", some "dnsapi"),
  ("dnsapi.lib", some "dnsapi"),
  ("fwpuclnt", some "fwpuclnt"),
  ("fwpuclnt.lib", some "fwpuclnt"),
  ("rasapi32", some "rasapi32"),
  ("rasapi32.lib", some "rasapi32"),
  ("secur32", some "secur32"),
  ("secur32.lib", some "secur32"),
  ("crypt32", some "crypt32"),
  ("crypt32.lib", some "crypt32"),
  ("bcrypt", some "bcrypt"),
  ("bcrypt.lib", some "bcrypt"),
  ("ncrypt", some "ncrypt"),
  ("ncrypt.lib", some "ncrypt"),
  ("advapi32", some "advapi32"),
  ("advapi32.lib", some "advapi32"),
  ("wintrust", some "wintrust"),
  ("wintrust.lib", some "wintrust"),
  ("cryptui", some "cryptui"),
  ("cryptui.lib", some "cryptui"),
  ("cryptnet", some "cryptnet"),
  ("cryptnet.lib", some "cryptnet"),
  ("schannel", some "schannel"),
  ("schannel.lib", some "schannel"),
  ("sspicli", some "sspicli"),
  ("sspicli.lib", some "sspicli"),
  ("shell32", some "shell32"),
  ("shell32.lib", some "shell32"),
  ("shlwapi", some "shlwapi"),
  ("shlwapi.lib", some "shlwapi"),
  ("comctl32", some "comctl32"),
  ("comctl32.lib", some "comctl32"),
  ("comdlg32", some "comdlg32"),
  ("comdlg32.lib", some "comdlg32"),
  ("uxtheme", some "uxtheme"),
  ("uxtheme.lib", some "uxtheme"),
  ("dwmapi", some "dwmapi"),
  ("dwmapi.lib", some "dwmapi"),
  ("ole32", some "ole32"),
  ("ole32.lib", some "ole32"),
  ("oleaut32", some "oleaut32"),
  ("oleaut32.lib", some "oleaut32"),
  ("uuid", some "uuid"),
  ("uuid.lib", some "uuid"),
  ("combase", some "combase"),
  ("combase.lib", some "combase"),
  ("propsys", some "propsys"),
  ("propsys.lib", some "propsys"),
  ("rpcrt4", some "rpcrt4"),
  ("rpcrt4.lib", some "rpcrt4"),
  ("rpcns4", some "rpcns4"),
  ("rpcns4.lib", some "rpcns4"),
  ("psapi", some "psapi"),
  ("psapi.lib", some "psapi"),
  ("dbghelp", some "dbghelp"),
  ("dbghelp.lib", some "dbghelp"),
  ("version", some "version"),
  ("version.lib", some "version"),
  ("wtsapi32", some "wtsapi32"),
  ("wtsapi32.lib", some "wtsapi32"),
  ("userenv", some "userenv"),
  ("userenv.lib", some "userenv"),
  ("powrprof", some "powrprof"),
  ("powrprof.lib", some "powrprof"),
  ("setupapi", some "setupapi"),
  ("setupapi.lib", some "setupapi"),
  ("cfgmgr32", some "cfgmgr32"),
  ("cfgmgr32.lib", some "cfgmgr32"),
  ("newdev", some "newdev"),
  ("newdev.lib", some "newdev"),
  ("mpr", some "mpr"),
  ("mpr.lib", some "mpr"),
  ("netapi32", some "netapi32"),
  ("netapi32.lib", some "netapi32"),
  ("winspool", some "winspool"),
  ("winspool.lib", some "winspool"),
  ("imm32", some "imm32"),
  ("imm32.lib", some "imm32"),
  ("opengl32", some "opengl32"),
  ("opengl32.lib", some "opengl32"),
  ("glu32", some "glu32"),
  ("glu32.lib", some "glu32"),
  ("winmm", some "winmm"),
  ("winmm.lib", some "winmm"),
  ("msimg32", some "msimg32"),
  ("msimg32.lib", some "msimg32"),
  ("odbc32", some "odbc32"),
  ("odbc32.lib", some "odbc32"),
  ("odbccp32", some "odbccp32"),
  ("odbccp32.lib", some "odbccp32"),
  ("imagehlp", some "imagehlp"),
  ("imagehlp.lib", some "imagehlp"),
  ("dbgeng", some "dbgeng"),
  ("dbgeng.lib", some "dbgeng"),
  ("wevtapi", some "wevtapi"),
  ("wevtapi.lib", some "wevtapi"),
  ("virtdisk", some "virtdisk"),
  ("virtdisk.lib", some "virtdisk"),
  ("wbemuuid", some "wbemuuid"),
  ("wbemuuid.lib", some "wbemuuid"),
  ("taskschd", some "taskschd"),
  ("taskschd.lib", some "taskschd"),
  ("wmi", some "wmi"),
  ("wmi.lib", some "wmi"),
  ("activeds", some "activeds"),
  ("activeds.lib", some "activeds"),
  ("adsiid", some "adsiid"),
  ("adsiid.lib", some "adsiid"),
  ("cabinet", some "cabinet"),
  ("cabinet.lib", some "cabinet"),
  ("svcctl", none),
  ("msvcrt", some "msvcrt"),
  ("msvcrt.lib", some "msvcrt"),
  ("msvcrtd", some "msvcrt"),
  ("msvcrtd.lib", some "msvcrt"),
  ("ucrt", some "ucrt"),
  ("ucrt.lib", some "ucrt"),
  ("ucrtd", some "ucrt"),
  ("ucrtd.lib", some "ucrt"),
  ("vcruntime", none),
  ("vcruntime.lib", none),
  ("libcmt", none),
  ("libcmt.lib", none),
  ("libcmtd", none),
  ("libcmtd.lib", none),
  ("d3d9", some "d3d9"),
  ("d3d9.lib", some "d3d9"),
  ("d3d11", some "d3d11"),
  ("d3d11.lib", some "d3d11"),
  ("d3d12", some "d3d12"),
  ("d3d12.lib", some "d3d12"),
  ("dxgi", some "dxgi"),
  ("dxgi.lib", some "dxgi"),
  ("dxguid", some "dxguid"),
  ("dxguid.lib", some "dxguid"),
  ("d3dcompiler", some "d3dcompiler_47"),
  ("d3dcompiler.lib", some "d3dcompiler_47"),
  ("dinput8", some "dinput8"),
  ("dinput8.lib", some "dinput8"),
  ("dsound", some "dsound"),
  ("dsound.lib", some "dsound"),
  ("dwrite", some "dwrite"),
  ("dwrite.lib", some "dwrite"),
  ("d2d1", some "d2d1"),
  ("d2d1.lib", some "d2d1"),
  ("synchronization", some "synchronization"),
  ("synchronization.lib", some "synchronization"),
  ("windowsapp", none),
  ("windowsapp.lib", none),
  ("runtimeobject", some "runtimeobject"),
  ("runtimeobject.lib", some "runtimeobject"),
  ("normaliz", some "normaliz"),
  ("normaliz.lib", some "normaliz"),
  ("sensorsapi", some "sensorsapi"),
  ("sensorsapi.lib", some "sensorsapi"),
  ("portabledeviceguids", some "portabledeviceguids"),
  ("portabledeviceguids.lib", some "portabledeviceguids"),
  ("credui", some "credui"),
  ("credui.lib", some "credui"),
  ("hid", some "hid"),
  ("hid.lib", some "hid"),
  ("bthprops", some "bthprops"),
  ("bthprops.lib", some "bthprops"),
  ("urlmon", some "urlmon"),
  ("urlmon.lib", some "urlmon"),
  ("htmlhelp", some "htmlhelp"),
  ("htmlhelp.lib", some "htmlhelp"),
  ("windows.data.pdf", none),
  ("mf", some "mf"),
  ("mf.lib", some "mf"),
  ("mfplat", some "mfplat"),
  ("mfplat.lib", some "mfplat"),
  ("mfuuid", some "mfuuid"),
  ("mfuuid.lib", some "mfuuid"),
  ("mfreadwrite", some "mfreadwrite"),
  ("mfreadwrite.lib", some "mfreadwrite"),
  ("bluetoothapis", some "bluetoothapis"),
  ("bluetoothapis.lib", some "bluetoothapis"),
  ("bits", some "bits"),
  ("bits.lib", some "bits"),
  ("comsvcs", some "comsvcs"),
  ("comsvcs.lib", some "comsvcs"),
  ("httpapi", some "httpapi"),
  ("httpapi.lib", some "httpapi"),
  ("authz", some "authz"),
  ("authz.lib", some "authz"),
  ("pdh", some "pdh"),
  ("pdh.lib", some "pdh"),
  ("ntoskrnl", none),
  ("atl", none),
  ("atl.lib", none),
  ("atlsd", none),
  ("mfc", none),
  ("mfc.lib", none),
  ("pthread", some "pthread"),
  ("pthreadGC2", some "pthread")]

/-- A Python dict from strings to `Optional[str]` values, modelled by its
`get` behaviour (the code never iterates `_lookup`, so `get` is the only
observation): `d k = none` means the key is absent, `d k = some v` that it is
present with value `v`. -/
def LookupDict := String → Option (Option String)

/-- The empty dict. -/
def emptyDict : LookupDict := fun _ => none

/-- `d[k] = v` (later assignments shadow earlier ones, as in a dict). -/
def dictSet (d : LookupDict) (k : String) (v : Option String) : LookupDict :=
  fun x => if x = k then some v else d x

/-- `k in d`. -/
def dictHas (d : LookupDict) (k : String) : Bool := (d k).isSome

/-- `LibraryMapper.__init__`: the case-insensitive reverse lookup.  For each
entry, store `win_name.lower()`, and additionally the base name with every
`'.lib'` removed if that key is not yet present. -/
def libLookup : LookupDict :=
  LIBRARY_MAP.foldl (fun d p =>
    let d1 := dictSet d (pyLower p.1) p.2
    let base := pyReplace (pyLower p.1) ".lib" ""
    if dictHas d1 base then d1 else dictSet d1 base p.2) emptyDict

/-- `LibraryMapper.map_library`: normalize (lower, strip, drop any path
prefix, remove `'.lib'`) and look the result up.  Python's `dict.get`
collapses "absent" and "mapped to None" to `None`; so does `Option.getD`
here. -/
def map_library (lib_name : String) : Option String :=
  let normalized := pyStrip (pyLower lib_name)
  let normalized :=
    if pyContains normalized "/" || pyContains normalized "\\" then
      (⟨afterLast '\\' (afterLast '/' normalized.data)⟩ : String)
    else normalized
  let normalized := pyReplace normalized ".lib" ""
  (libLookup normalized).getD none

/-- `s` is empty or does not end in Python whitespace. -/
def noTrailingWs (s : String) : Bool :=
  match s.data.getLast? with
  | none => true
  | some c => !pyWhitespace c

/-- `map_library` expressed over the character data of its argument. -/
def mapLibData (l : List Char) : Option String :=
  (libLookup ⟨replaceChars ".lib".data []
    (if (stripChars (lowerChars l)).contains '/' ||
        (stripChars (lowerChars l)).contains '\\' then
      afterLast '\\' (afterLast '/' (stripChars (lowerChars l)))
    else stripChars (lowerChars l))⟩).getD none

/-- One entry of `SlnParser.projects` (`self.projects[project_guid.upper()]`):
the fields that `get_build_order` reads.  Python compares the project dicts
structurally, and records of distinct registry keys always differ because the
`guid` field repeats the key. -/
structure Proj where
  guid : String
  name : String
  ptype : String
deriving DecidableEq, Repr

/-- The parser state read by `get_project_dependencies` and
`get_build_order`: the project registry (declaration order, keyed by
upper-cased GUID) and the dependency map `self.dependencies` (a
`defaultdict(list)`). -/
structure Sln where
  projects : List Proj
  deps : List (String × List String)
deriving Repr

/-- `self.dependencies.get(g, [])`. -/
def depsOf (s : Sln) (g : String) : List String :=
  ((s.deps.find? (fun p => p.1 = g)).map (fun p => p.2)).getD []

/-- Well-formedness of a parsed solution: `self.projects` is a dict keyed by
GUID, so the GUIDs of its entries are distinct, and each entry's `guid` field
equals its key. -/
def WFSln (s : Sln) : Prop := (s.projects.map (fun p => p.guid)).Nodup

instance : DecidablePred WFSln := fun _ => List.nodupDecidable _

/-- The type filter at the head of `get_build_order`: either projects of the
requested type, or all projects that are not solution folders. -/
def relevantProjects (s : Sln) (ptype : Option String) : List Proj :=
  match ptype with
  | some t => s.projects.filter (fun p => p.ptype = t)
  | none => s.projects.filter (fun p => p.ptype ≠ "SolutionFolder")

/-- `relevant_projects[g]` (only queried for GUIDs in the filtered registry). -/
def projOf (relevant : List Proj) (g : String) : Proj :=
  (relevant.find? (fun p => p.guid = g)).getD ⟨"", "", ""⟩

/-- The sort key of the queue: `relevant_projects[g]['name']`. -/
def nameOf (relevant : List Proj) (g : String) : String := (projOf relevant g).name

/-- `graph[c]` after the graph-building loop: one entry `g` per occurrence of
`c` in `dependencies[g]`, for `g` over the filtered registry in declaration
order, restricted to dependencies inside the filtered registry. -/
def adj (s : Sln) (R : List String) (c : String) : List String :=
  R.flatMap (fun g =>
    ((depsOf s g).filter (fun d => d = c && R.contains d)).map (fun _ => g))

/-- `in_degree[g]` after the graph-building loop: the number of dependency
entries of `g` that lie inside the filtered registry (`0` for other keys, as
for a fresh `defaultdict(int)` entry). -/
def inDeg (s : Sln) (R : List String) (g : String) : Int :=
  if R.contains g then (((depsOf s g).filter (fun d => R.contains d)).length : Int)
  else 0

/-- The inner loop of Kahn's algorithm: for each neighbour of the popped
node, decrement its in-degree and enqueue it when the running value hits
zero. -/
def processNeighbors (ns : List String) (f : String → Int) (q : List String) :
    (String → Int) × List String :=
  match ns with
  | [] => (f, q)
  | nb :: rest =>
    let f' := fun x => if x = nb then f x - 1 else f x
    if f' nb = 0 then processNeighbors rest f' (q ++ [nb])
    else processNeighbors rest f' q

/-- The `while queue:` loop of `get_build_order`: sort the queue by project
name, pop the front, append its project record to the result, and process its
neighbours.  The fuel argument only bounds the iteration count; `fuel =
len(relevant_projects)` is enough for the loop to run to completion because
every iteration moves one node into the result and no node enters the queue
twice. -/
def kahnLoop (s : Sln) (relevant : List Proj) (R : List String) :
    Nat → List String → (String → Int) → List Proj → List Proj
  | 0, _, _, res => res
  | fuel + 1, q, f, res =>
    match pySortBy (fun a b => strLt (nameOf relevant a) (nameOf relevant b)) q with
    | [] => res
    | c :: rest =>
      let st := processNeighbors (adj s R c) f rest
      kahnLoop s relevant R fuel st.2 st.1 (res ++ [projOf relevant c])

/-- `SlnParser.get_build_order`: Kahn's algorithm over the filtered
dependency subgraph, with the queue kept sorted by project name, followed by
the cycle fallback that appends the unprocessed remainder in declaration
order. -/
def get_build_order (s : Sln) (ptype : Option String) : List Proj :=
  let relevant := relevantProjects s ptype
  let R := relevant.map (fun p => p.guid)
  let q0 := R.filter (fun g => inDeg s R g = 0)
  let result := kahnLoop s relevant R relevant.length q0 (inDeg s R) []
  if result.length ≠ relevant.length then
    result ++ relevant.filter (fun p => !(result.contains p))
  else result

/-- `self.projects[g]` (only queried for registered GUIDs). -/
def projByGuid (s : Sln) (g : String) : Proj :=
  (s.projects.find? (fun p => p.guid = g)).getD ⟨"", "", ""⟩

/-- `SlnParser.get_project_dependencies`. -/
def get_project_dependencies (s : Sln) (g : String) : List Proj :=
  ((depsOf s (pyUpper g)).filter
    (fun d => (s.projects.map (fun p => p.guid)).contains d)).map (projByGuid s)

/-- A declared dependency edge inside the filtered subgraph: `EdgeRel s t d g`
says that `g` depends on `d` (so `d` must build first) and both are in the
filtered registry. -/
def EdgeRel (s : Sln) (ptype : Option String) (d g : String) : Prop :=
  d ∈ (relevantProjects s ptype).map (fun p => p.guid) ∧
  g ∈ (relevantProjects s ptype).map (fun p => p.guid) ∧
  d ∈ depsOf s g

/-- The number of dependency entries of `g` that lie in the filtered registry
`R` and are not yet processed (`P` is the list of processed GUIDs).  This is
the value `in_degree[g]` holds at the loop state where exactly the nodes of
`P` have been popped. -/
def pend (s : Sln) (R P : List String) (g : String) : Nat :=
  ((depsOf s g).filter (fun d => R.contains d && !(P.contains d))).length

/-- The processed list is topologically closed: every processed node's
in-registry dependencies appear strictly before it. -/
def ChainClosed (s : Sln) (R : List String) (P : List String) : Prop :=
  ∀ p₁ c p₂, P = p₁ ++ c :: p₂ → ∀ d, d ∈ depsOf s c → d ∈ R → d ∈ p₁

/-- The GUID list of the filtered registry. -/
def Rof (s : Sln) (ptype : Option String) : List String :=
  (relevantProjects s ptype).map (fun p => p.guid)

/-- The initial queue of `get_build_order`. -/
def q0of (s : Sln) (ptype : Option String) : List String :=
  (Rof s ptype).filter (fun g => inDeg s (Rof s ptype) g = 0)

/-- The value the Kahn loop of `get_build_order` returns. -/
def kahnK (s : Sln) (ptype : Option String) : List Proj :=
  kahnLoop s (relevantProjects s ptype) (Rof s ptype)
    (relevantProjects s ptype).length (q0of s ptype) (inDeg s (Rof s ptype)) []

/-- The solution with every dependency edge pointing at `X` removed. -/
def removeDepEdges (s : Sln) (X : String) : Sln :=
  ⟨s.projects, s.deps.map (fun p => (p.1, p.2.filter (fun d => !(d == X))))⟩

/-! ## Embedding of `vcxproj_parser.py`

An XML project file is modelled by the parts of the element tree the parser
observes.  Setting elements (the targets of `findall` on a tag path) carry an
identity `eid` (Python compares `ET.Element` objects by identity in
`elem not in results`), their tag, their text (`""` models a missing text, as
Python's `if elem.text:` treats both alike), and the `Condition` attribute of
their direct parent element (`""` when absent) — in a real project file the
direct parent of a setting such as `<Optimization>` is the `<ClCompile>`
container, which carries no `Condition` even when the enclosing group does.
Groups are the `ItemDefinitionGroup` / `PropertyGroup` / other containers, in
document order, each holding its descendant setting elements in document
order. -/

inductive GKind where
  | idg
  | pg
  | other
  deriving DecidableEq, Repr

structure XElem where
  eid : Nat
  tag : String
  text : String
  parentCond : String
  deriving DecidableEq, Repr

structure XGroup where
  kind : GKind
  cond : String
  elems : List XElem
  deriving DecidableEq, Repr

/-- The observable state of a `VcxprojParser`: the element tree plus the
path-derived inputs (`self.project_dir`, its parent, and the filename stem
used as the project-name fallback). -/
structure VcxFile where
  groups : List XGroup
  projectDir : String
  solutionDir : String
  stem : String
  deriving Repr

/-- `VcxprojParser._get_condition_match` (the two `config_pattern` locals of
the source are dead code and are omitted). -/
def get_condition_match (condition config platform : String) : Bool :=
  if condition = "" then true
  else
    let condition_lower := pyLower condition
    let target := "'" ++ pyLower config ++ "|" ++ pyLower platform ++ "'"
    pyContains condition_lower target || pyContains condition_lower (pyLower config)

/-- `VcxprojParser._find_elements_for_config`: two passes over conditioned
`ItemDefinitionGroup` / `PropertyGroup` containers, then a global pass that
appends every element whose direct parent carries no `Condition` attribute
and that is not already present (Python identity, i.e. `eid` equality). -/
def find_elements_for_config (f : VcxFile) (tag config platform : String) :
    List XElem :=
  let results :=
    (f.groups.filter (fun g => decide (g.kind = GKind.idg) &&
        get_condition_match g.cond config platform)).flatMap
      (fun g => g.elems.filter (fun e => e.tag = tag)) ++
    (f.groups.filter (fun g => decide (g.kind = GKind.pg) &&
        get_condition_match g.cond config platform)).flatMap
      (fun g => g.elems.filter (fun e => e.tag = tag))
  (f.groups.flatMap (fun g => g.elems.filter (fun e => e.tag = tag))).foldl
    (fun acc e =>
      if e.parentCond = "" then
        if acc.all (fun r => r.eid != e.eid) then acc ++ [e] else acc
      else acc)
    results

/-- A parsed solution file is well formed when its element identities are
distinct (each `ET.Element` is one Python object). -/
def WFVcx (f : VcxFile) : Prop :=
  ((f.groups.flatMap (fun g => g.elems)).map (fun e => e.eid)).Nodup

instance : DecidablePred WFVcx := fun f =>
  inferInstanceAs (Decidable (List.Nodup _))

/-- `self.root.find(tag)`: the first element with the tag, in document
order. -/
def findElem (f : VcxFile) (tag : String) : Option XElem :=
  (f.groups.flatMap (fun g => g.elems)).find? (fun e => e.tag = tag)

/-- Fallback chain of `VcxprojParser.get_project_name` past the
`ProjectName` element. -/
def nameFromRootNs (f : VcxFile) : String :=
  match findElem f "RootNamespace" with
  | some e => if e.text ≠ "" then e.text else f.stem
  | none => f.stem

/-- `VcxprojParser.get_project_name`. -/
def get_project_name (f : VcxFile) : String :=
  match findElem f "ProjectName" with
  | some e => if e.text ≠ "" then e.text else nameFromRootNs f
  | none => nameFromRootNs f

/-- Scanner for ``re.sub(r'\$\([^)]+\)', '', result)``: the length of the run
of non-`)` characters before the next `)`, and the rest after that `)`. -/
def splitAtParen : List Char → Option (Nat × List Char)
  | [] => none
  | c :: rest =>
    if c = ')' then some (0, rest)
    else (splitAtParen rest).map (fun p => (p.1 + 1, p.2))

/-- Left-to-right deletion of every `$(` + at least one non-`)` character +
`)` occurrence, as `re.sub` performs it.  The fuel is one unit per character
position (the input's length always suffices). -/
def stripUnresolved : Nat → List Char → List Char
  | 0, l => l
  | _ + 1, [] => []
  | fuel + 1, '$' :: '(' :: rest =>
    (match splitAtParen rest with
     | some (Nat.succ _, rest2) => stripUnresolved fuel rest2
     | _ => '$' :: stripUnresolved fuel ('(' :: rest))
  | fuel + 1, c :: rest => c :: stripUnresolved fuel rest

/-- `VcxprojParser._expand_macros`: the replacement table in its insertion
order (`$(Configuration)` and `$(Platform)` are bound to the constants
`'Release'` and `'x64'` in the source), then removal of unresolved
`$(...)` occurrences. -/
def expand_macros (f : VcxFile) (value : String) : String :=
  if value = "" then value
  else
    let r := pyReplace value "$(ProjectDir)" (f.projectDir ++ "/")
    let r := pyReplace r "$(SolutionDir)" (f.solutionDir ++ "/")
    let r := pyReplace r "$(Configuration)" "Release"
    let r := pyReplace r "$(Platform)" "x64"
    let r := pyReplace r "$(IntDir)" "build/"
    let r := pyReplace r "$(OutDir)" "build/"
    let r := pyReplace r "$(TargetName)" (get_project_name f)
    let r := pyReplace r "$(ProjectName)" (get_project_name f)
    ⟨stripUnresolved r.data.length r.data⟩

/-- `text.split(';')`. -/
def splitSemiAux : List Char → List Char → List String
  | [], cur => [⟨cur.reverse⟩]
  | c :: rest, cur =>
    if c = ';' then (⟨cur.reverse⟩ : String) :: splitSemiAux rest []
    else splitSemiAux rest (c :: cur)

def pySplitSemi (s : String) : List String := splitSemiAux s.data []

/-- `VcxprojParser.get_include_directories`: a Python `set` filled in scope
order and observed only through `sorted(list(includes))`, modelled as a
first-occurrence-deduplicating fold followed by the sort. -/
def get_include_directories (f : VcxFile) (config platform : String) :
    List String :=
  let elements := find_elements_for_config f "AdditionalIncludeDirectories"
    config platform
  let includes := elements.foldl (fun acc e =>
    if e.text ≠ "" then
      (pySplitSemi (expand_macros f e.text)).foldl (fun acc2 inc0 =>
        let inc := pyStrip inc0
        if inc ≠ "" ∧ inc ≠ "%(AdditionalIncludeDirectories)" then
          insertIfAbsent acc2 (pyReplace inc "\\" "/")
        else acc2) acc
    else acc) []
  pySortedStr includes

/-- Spec-side definition (from the specification's words, for comparison
with `get_include_directories`): the include directories in declaration
order, first occurrence kept, never reordered. -/
def declaredIncludeDirs (f : VcxFile) (config platform : String) :
    List String :=
  let elements := find_elements_for_config f "AdditionalIncludeDirectories"
    config platform
  elements.foldl (fun acc e =>
    if e.text ≠ "" then
      (pySplitSemi (expand_macros f e.text)).foldl (fun acc2 inc0 =>
        let inc := pyStrip inc0
        if inc ≠ "" ∧ inc ≠ "%(AdditionalIncludeDirectories)" then
          insertIfAbsent acc2 (pyReplace inc "\\" "/")
        else acc2) acc
    else acc) []

/-- Spec-side definition (from the specification's words, for comparison
with `get_condition_match`): normalized case-insensitive comparison against
the quoted `configuration|platform` pair, empty condition always matching. -/
def spec_condition_match (condition config platform : String) : Bool :=
  decide (condition = "") ||
    pyContains (pyLower condition)
      ("'" ++ pyLower config ++ "|" ++ pyLower platform ++ "'")

/-- The branch ladder of `VcxprojParser.get_optimization` applied to one
element's text (`None` when no branch returns, which makes the source's
loop move on; the `'maxspeed'` → `-O2` arm is dead code shadowed by the
`'full' or 'maxspeed'` arm and is kept as in the source). -/
def optOf (t : String) : Option String :=
  let opt := pyLower t
  if pyContains opt "disabled" then some "-O0"
  else if pyContains opt "full" || pyContains opt "maxspeed" then some "-O3"
  else if pyContains opt "minspace" then some "-Os"
  else if pyContains opt "maxspeed" then some "-O2"
  else none

/-- `VcxprojParser.get_optimization`. -/
def get_optimization (f : VcxFile) (config platform : String) : String :=
  match (find_elements_for_config f "Optimization" config platform).findSome?
      (fun e => if e.text ≠ "" then optOf e.text else none) with
  | some r => r
  | none => if config = "Release" then "-O2" else "-O0"

/-- `VcxprojParser.get_subsystem`. -/
def get_subsystem (f : VcxFile) (config platform : String) : String :=
  match (find_elements_for_config f "SubSystem" config platform).findSome?
      (fun e => if e.text ≠ "" then some e.text else none) with
  | some r => r
  | none => "Console"

/-- The branch ladder of `VcxprojParser.get_cpp_standard` on one element's
text. -/
def stdOf (t : String) : Option String :=
  let std := pyLower t
  if pyContains std "c++17" || pyContains std "stdcpp17" then some "c++17"
  else if pyContains std "c++14" || pyContains std "stdcpp14" then some "c++14"
  else if pyContains std "c++20" || pyContains std "stdcpp20" then some "c++20"
  else if pyContains std "latest" then some "c++20"
  else none

/-- `VcxprojParser.get_cpp_standard`. -/
def get_cpp_standard (f : VcxFile) (config platform : String) : String :=
  match (find_elements_for_config f "LanguageStandard" config platform).findSome?
      (fun e => if e.text ≠ "" then stdOf e.text else none) with
  | some r => r
  | none => "c++11"

namespace CMakeGen

/-! ## Embedding of `cmake_generator.py`

`CMakeGenerator` holds a parsed project-data dict observed only through
`dict.get` with defaults, modelled by a record of `Option` fields, and an
optional `LibraryMapper` (the `useMapper` flag; the mapper itself is
stateless and is the `map_library` function).  `_detect_wide_entry_point`
reads files from disk: the filesystem is made an explicit argument
`fs : List (String × String)` of path–content pairs (`read_text` modelled
as always succeeding on an existing path). -/

structure ProjData where
  project_name : Option String
  config : Option String
  configuration_type : Option String
  cpp_standard : Option String
  optimization : Option String
  subsystem : Option String
  runtime_library : Option String
  preprocessor_definitions : Option (List String)
  additional_options : Option (List String)
  additional_libraries : Option (List String)
  include_directories : Option (List String)
  source_files : Option (List String)
  c_source_files : Option (List String)
  cpp_source_files : Option (List String)
  resource_files : Option (List String)
  project_dir : Option String
  deriving Repr

/-- `CMakeGenerator.MSVC_TO_GCC_FLAGS` (a dict observed via `in` and
indexing; keys are distinct literals). -/
def MSVC_TO_GCC_FLAGS : List (String × String) :=
  [("/W0", "-w"), ("/W1", "-Wall"), ("/W2", "-Wall"), ("/W3", "-Wall"),
   ("/W4", "-Wall -Wextra"), ("/WX", "-Werror"), ("/Od", "-O0"),
   ("/O1", "-O1"), ("/O2", "-O2"), ("/Ox", "-O3"), ("/GS-", ""),
   ("/GS", "-fstack-protector"), ("/Gy", "-ffunction-sections"),
   ("/GL", "-flto"), ("/MT", "-static"), ("/MTd", "-static"), ("/MD", ""),
   ("/MDd", ""), ("/EHsc", "-fexceptions"), ("/EHa", "-fexceptions"),
   ("/Zi", "-g"), ("/ZI", "-g"), ("/RTC1", ""), ("/fp:fast", "-ffast-math"),
   ("/fp:precise", ""), ("/fp:strict", "-frounding-math"), ("/Gd", ""),
   ("/Gr", "-mrtd"), ("/Gz", "-mstackrealign"),
   ("/permissive-", "-fpermissive"), ("/std:c++14", "-std=c++14"),
   ("/std:c++17", "-std=c++17"), ("/std:c++20", "-std=c++20"),
   ("/std:c++latest", "-std=c++20"), ("/Zc:wchar_t", ""),
   ("/Zc:forScope", ""), ("/Zc:inline", "")]

/-- `CMakeGenerator.SKIP_DEFINITIONS` (a set observed via `in`). -/
def SKIP_DEFINITIONS : List String :=
  ["_MBCS", "_AFXDLL", "_ATL_DLL", "VC_EXTRALEAN",
   "_CRT_SECURE_NO_WARNINGS", "_SCL_SECURE_NO_WARNINGS",
   "_CRT_NONSTDC_NO_DEPRECATE", "_CRT_SECURE_NO_DEPRECATE"]

/-- `CMakeGenerator._convert_msvc_flag` (`None` models Python `None`; the
empty string stays `some ""`, which callers drop through `if converted:`). -/
def convert_msvc_flag (flag : String) : Option String :=
  let flag := pyStrip flag
  match MSVC_TO_GCC_FLAGS.find? (fun p => p.1 = flag) with
  | some p => some p.2
  | none =>
    if pyStartsWith flag "/D" then some ("-D" ++ pyDropLeft flag 2)
    else if pyStartsWith flag "-D" then some flag
    else if pyStartsWith flag "/I" then some ("-I" ++ pyDropLeft flag 2)
    else if pyStartsWith flag "-I" then some flag
    else if pyStartsWith flag "/wd" then none
    else if pyStartsWith flag "/" then none
    else some flag

/-- `CMakeGenerator._filter_definitions`. -/
def filter_definitions (definitions : List String) : List String :=
  definitions.filter (fun defn => !(SKIP_DEFINITIONS.contains defn))

/-- `CMakeGenerator._get_compile_definitions`: filter, then append each
essential definition not already present (the source's
`for defn in essential: if defn not in definitions: definitions.append`). -/
def get_compile_definitions (d : ProjData) : List String :=
  let definitions := filter_definitions (d.preprocessor_definitions.getD [])
  let config := d.config.getD "Release"
  let essential := ["WIN32", "_WINDOWS", "UNICODE", "_UNICODE",
    "SECURITY_WIN32", "GUID_NULL=IID_NULL"] ++
    (if config = "Debug" then ["_DEBUG", "DEBUG"] else ["NDEBUG"])
  essential.foldl insertIfAbsent definitions

/-- `CMakeGenerator._get_libraries`: a set observed through
`sorted(list(libs))`. -/
def get_libraries (d : ProjData) (useMapper : Bool) : List String :=
  let libs := (d.additional_libraries.getD []).foldl (fun acc lib =>
    if useMapper then
      match map_library lib with
      | some mapped => if mapped ≠ "" then insertIfAbsent acc mapped else acc
      | none => acc
    else
      insertIfAbsent acc
        (pyReplace (pyReplace (pyReplace lib ".lib" "") ".Lib" "") ".LIB" ""))
    []
  let default_libs := ["kernel32", "user32", "gdi32", "winspool", "comdlg32",
    "advapi32", "shell32", "ole32", "oleaut32", "uuid",
    "odbc32", "odbccp32", "ws2_32", "crypt32", "secur32",
    "rpcrt4", "ntdll", "shlwapi", "version", "psapi",
    "userenv", "wtsapi32", "netapi32"]
  pySortedStr (default_libs.foldl insertIfAbsent libs)

/-- `CMakeGenerator._get_compile_options`. -/
def get_compile_options (d : ProjData) : List String :=
  let options := (d.additional_options.getD []).foldl (fun acc flag =>
    match convert_msvc_flag flag with
    | some c => if c ≠ "" then acc ++ [c] else acc
    | none => acc) []
  let options := ["-Wno-deprecated-declarations", "-Wno-write-strings",
    "-municode", "-fno-strict-aliasing", "-fms-extensions",
    "-Wno-expansion-to-defined"].foldl insertIfAbsent options
  let optimization := d.optimization.getD "-O2"
  let options := if optimization ≠ "" ∧ optimization ∉ options then
    options ++ [optimization] else options
  let config := d.config.getD "Release"
  if config = "Debug" ∧ "-g" ∉ options then options ++ ["-g"] else options

/-- Python's `\w` for the ASCII range the sources use. -/
def isWordChar (c : Char) : Bool := c.isAlphanum || c = '_'

/-- `\s*\(` after the matched name. -/
def parenAfterWs : List Char → Bool
  | [] => false
  | c :: rest => if pyWhitespace c then parenAfterWs rest else decide (c = '(')

/-- A match of ``\bNAME\s*\(`` starting at this position (the word boundary
to the left is checked by the caller). -/
def entryHere (name : List Char) (l : List Char) : Bool :=
  startsWithChars name l && parenAfterWs (l.drop name.length)

/-- Scan for ``re.search(r'\bwmain\s*\(')`` or
``re.search(r'\bwWinMain\s*\(')``: try every position, with the previous
character (if any) required to be a non-word character. -/
def scanWideAux : Option Char → List Char → Bool
  | _, [] => false
  | prev, c :: rest =>
    if (match prev with | none => true | some p => !isWordChar p) &&
        (entryHere "wmain".data (c :: rest) ||
          entryHere "wWinMain".data (c :: rest)) then true
    else scanWideAux (some c) rest

def scanWide (content : String) : Bool := scanWideAux none content.data

/-- `Path(project_dir) / src`. -/
def pathJoin (dir file : String) : String := dir ++ "/" ++ file

/-- The filesystem, observed through existence and `read_text`. -/
def lookupFs (fs : List (String × String)) (p : String) : Option String :=
  (fs.find? (fun q => q.1 = p)).map (fun q => q.2)

/-- `CMakeGenerator._detect_wide_entry_point`: for each source file, probe
the path, then its lower-cased variant, and scan the first one that exists;
`True` as soon as one scan hits. -/
def detect_wide_entry_point (d : ProjData) (fs : List (String × String)) :
    Bool :=
  (d.source_files.getD []).any (fun src =>
    let p1 := pathJoin (d.project_dir.getD ".") (pyReplace src "\\" "/")
    let p2 := pathJoin (d.project_dir.getD ".")
      (pyLower (pyReplace src "\\" "/"))
    match lookupFs fs p1 with
    | some content => scanWide content
    | none =>
      match lookupFs fs p2 with
      | some content => scanWide content
      | none => false)

/-- `CMakeGenerator._get_link_options`. -/
def get_link_options (d : ProjData) (fs : List (String × String)) :
    List String :=
  let options : List String := []
  let subsystem := pyLower (d.subsystem.getD "Console")
  let options := if pyContains subsystem "console" then
      options ++ ["-mconsole"]
    else if pyContains subsystem "windows" then options ++ ["-mwindows"]
    else options
  let options := if detect_wide_entry_point d fs then
      options ++ ["-municode"] else options
  let runtime := d.runtime_library.getD ""
  if pyContains runtime "MultiThreaded" && !(pyContains runtime "DLL") then
    options ++ ["-static", "-static-libgcc", "-static-libstdc++"]
  else options

/-- `CMakeGenerator._get_include_directories`. -/
def get_include_directories (d : ProjData) : List String :=
  let includes := d.include_directories.getD []
  let includes := if "." ∉ includes then ["."] ++ includes else includes
  if "mingw_stubs" ∉ includes then includes ++ ["mingw_stubs"] else includes

/-- `src.rsplit('/', 1)` with the final component lower-cased, shared by the
source-file getters. -/
def lowerBase (src : String) : String :=
  if pyContains src "/" then
    (⟨beforeLast '/' src.data⟩ : String) ++ "/" ++
      pyLower ⟨afterLast '/' src.data⟩
  else pyLower src

/-- `CMakeGenerator._get_source_files`. -/
def get_source_files (d : ProjData) : List String :=
  (d.source_files.getD []).map (fun src => lowerBase (pyReplace src "\\" "/"))

/-- `CMakeGenerator._get_c_source_files`. -/
def get_c_source_files (d : ProjData) : List String :=
  let c_files := d.c_source_files.getD []
  if c_files ≠ [] then
    c_files.map (fun src => lowerBase (pyReplace src "\\" "/"))
  else
    (d.source_files.getD []).foldl (fun acc src0 =>
      let src := pyReplace src0 "\\" "/"
      if pyEndsWith (pyLower src) ".c" then acc ++ [lowerBase src] else acc) []

/-- `CMakeGenerator._get_cpp_source_files`. -/
def get_cpp_source_files (d : ProjData) : List String :=
  let cpp_files := d.cpp_source_files.getD []
  if cpp_files ≠ [] then
    cpp_files.map (fun src => lowerBase (pyReplace src "\\" "/"))
  else
    (d.source_files.getD []).foldl (fun acc src0 =>
      let src := pyReplace src0 "\\" "/"
      if [".cpp", ".cxx", ".cc", ".c++"].any
          (fun ext => pyEndsWith (pyLower src) ext) then
        acc ++ [lowerBase src]
      else acc) []

/-- `CMakeGenerator._get_resource_files`. -/
def get_resource_files (d : ProjData) : List String :=
  (d.resource_files.getD []).map (fun rc => lowerBase (pyReplace rc "\\" "/"))

/-- `CMakeGenerator._get_c_compile_options`. -/
def get_c_compile_options (d : ProjData) : List String :=
  let options : List String := []
  let options := ["-Wno-deprecated-declarations", "-fno-strict-aliasing",
    "-fms-extensions"].foldl insertIfAbsent options
  let optimization := d.optimization.getD "-O2"
  let options := if optimization ≠ "" ∧ optimization ∉ options then
    options ++ [optimization] else options
  let config := d.config.getD "Release"
  if config = "Debug" ∧ "-g" ∉ options then options ++ ["-g"] else options

/-- `CMakeGenerator._get_cpp_compile_options`. -/
def get_cpp_compile_options (d : ProjData) : List String :=
  let options := (d.additional_options.getD []).foldl (fun acc flag =>
    match convert_msvc_flag flag with
    | some c => if c ≠ "" then acc ++ [c] else acc
    | none => acc) []
  let options := ["-Wno-deprecated-declarations", "-Wno-write-strings",
    "-fno-strict-aliasing", "-fms-extensions",
    "-Wno-expansion-to-defined"].foldl insertIfAbsent options
  let optimization := d.optimization.getD "-O2"
  let options := if optimization ≠ "" ∧ optimization ∉ options then
    options ++ [optimization] else options
  let config := d.config.getD "Release"
  if config = "Debug" ∧ "-g" ∉ options then options ++ ["-g"] else options

/-- `';'.join`. -/
def joinSemi : List String → String
  | [] => ""
  | [x] => x
  | x :: y :: rest => x ++ ";" ++ joinSemi (y :: rest)

/-- `'\n'.join`. -/
def joinLines : List String → String
  | [] => ""
  | [x] => x
  | x :: y :: rest => x ++ "\n" ++ joinLines (y :: rest)

/-- `CMakeGenerator.generate`: the full CMakeLists assembly.  Both calls of
`_detect_wide_entry_point` (the mixed-project compile-flag block and
`_get_link_options`) read the same filesystem argument. -/
def generate (d : ProjData) (useMapper : Bool)
    (fs : List (String × String)) : String :=
  let project_name := d.project_name.getD "project"
  let c_sources := get_c_source_files d
  let cpp_sources := get_cpp_source_files d
  let has_c := decide (c_sources.length > 0)
  let has_cpp := decide (cpp_sources.length > 0)
  let is_mixed := has_c && has_cpp
  let lines : List String := ["# Auto-generated CMakeLists.txt by DockPiler",
    "# Project: " ++ project_name]
  let lines := if is_mixed then
    lines ++ ["# Mixed C/C++ project detected"] else lines
  let lines := lines ++ ["", "cmake_minimum_required(VERSION 3.10)"]
  let lines := lines ++
    [if is_mixed then "project(" ++ project_name ++ " LANGUAGES C CXX)"
     else if has_c && !has_cpp then
       "project(" ++ project_name ++ " LANGUAGES C)"
     else "project(" ++ project_name ++ ")"]
  let lines := lines ++ [""]
  let lines := if has_cpp then
      let cpp_std := d.cpp_standard.getD "c++11"
      let cpp_std_num := pyReplace cpp_std "c++" ""
      lines ++ ["set(CMAKE_CXX_STANDARD " ++ cpp_std_num ++ ")",
        "set(CMAKE_CXX_STANDARD_REQUIRED ON)"]
    else lines
  let lines := if has_c then
      lines ++ ["set(CMAKE_C_STANDARD 11)", "set(CMAKE_C_STANDARD_REQUIRED ON)"]
    else lines
  let lines := lines ++ [""]
  let lines := if is_mixed then
      lines ++ ["# C source files", "set(SOURCES_C"] ++
        c_sources.map (fun src => "    " ++ src) ++ [")", ""] ++
        ["# C++ source files", "set(SOURCES_CXX"] ++
        cpp_sources.map (fun src => "    " ++ src) ++ [")", ""] ++
        ["# All source files", "set(SOURCES ${SOURCES_C} ${SOURCES_CXX})",
         ""] ++
        ["# Auto-generated IID definition files",
         "file(GLOB IID_SOURCES \"*_iid.c\")",
         "list(APPEND SOURCES ${IID_SOURCES})",
         "list(APPEND SOURCES_C ${IID_SOURCES})", ""]
    else
      let sources := get_source_files d
      if sources ≠ [] then
        lines ++ ["# Source files", "set(SOURCES"] ++
          sources.map (fun src => "    " ++ src) ++ [")", ""] ++
          ["# Auto-generated IID definition files",
           "file(GLOB IID_SOURCES \"*_iid.c\")",
           "list(APPEND SOURCES ${IID_SOURCES})", ""]
      else lines
  let resources := get_resource_files d
  let lines := if resources ≠ [] then
      lines ++ ["# Resource files", "set(RESOURCES"] ++
        resources.map (fun rc => "    " ++ rc) ++ [")", ""]
    else lines
  let config_type := d.configuration_type.getD "Application"
  let is_dll := decide (config_type = "DynamicLibrary")
  let is_static_lib := decide (config_type = "StaticLibrary")
  let sources_exist := if is_mixed then
      !c_sources.isEmpty || !cpp_sources.isEmpty
    else !(get_source_files d).isEmpty
  let lines :=
    if is_dll then
      lines ++ ["# Create shared library (DLL)"] ++
      (if !resources.isEmpty && sources_exist then
         ["add_library(" ++ project_name ++ " SHARED ${SOURCES} ${RESOURCES})"]
       else if sources_exist then
         ["add_library(" ++ project_name ++ " SHARED ${SOURCES})"]
       else
         ["file(GLOB_RECURSE SOURCES \"*.cpp\" \"*.c\")",
          "file(GLOB_RECURSE RESOURCES \"*.rc\")",
          "add_library(" ++ project_name ++ " SHARED ${SOURCES} ${RESOURCES})"])
    else if is_static_lib then
      lines ++ ["# Create static library"] ++
      (if sources_exist then
         ["add_library(" ++ project_name ++ " STATIC ${SOURCES})"]
       else
         ["file(GLOB_RECURSE SOURCES \"*.cpp\" \"*.c\")",
          "add_library(" ++ project_name ++ " STATIC ${SOURCES})"])
    else
      lines ++ ["# Create executable"] ++
      (if !resources.isEmpty && sources_exist then
         ["add_executable(" ++ project_name ++ " ${SOURCES} ${RESOURCES})"]
       else if sources_exist then
         ["add_executable(" ++ project_name ++ " ${SOURCES})"]
       else
         ["file(GLOB_RECURSE SOURCES \"*.cpp\" \"*.c\")",
          "file(GLOB_RECURSE RESOURCES \"*.rc\")",
          "add_executable(" ++ project_name ++ " ${SOURCES} ${RESOURCES})"])
  let lines := lines ++ [""]
  let includes := get_include_directories d
  let lines := if includes ≠ [] then
      lines ++ ["# Include directories",
        "target_include_directories(" ++ project_name ++ " PRIVATE"] ++
        includes.map (fun inc => "    " ++ inc) ++ [")", ""]
    else lines
  let definitions := get_compile_definitions d
  let lines := if definitions ≠ [] then
      lines ++ ["# Preprocessor definitions",
        "target_compile_definitions(" ++ project_name ++ " PRIVATE"] ++
        definitions.map (fun defn => "    " ++ defn) ++ [")", ""]
    else lines
  let lines := if is_mixed then
      let c_options := get_c_compile_options d
      let lines := if c_options ≠ [] then
          lines ++ ["# C compiler options",
            "set_source_files_properties(${SOURCES_C} PROPERTIES COMPILE_OPTIONS",
            "    \"" ++ joinSemi c_options ++ "\"", ")", ""]
        else lines
      let cpp_options := get_cpp_compile_options d
      let lines := if cpp_options ≠ [] then
          lines ++ ["# C++ compiler options",
            "set_source_files_properties(${SOURCES_CXX} PROPERTIES COMPILE_OPTIONS",
            "    \"" ++ joinSemi cpp_options ++ "\"", ")", ""]
        else lines
      if detect_wide_entry_point d fs then
        lines ++ ["# Unicode entry point (C++ only)",
          "set_source_files_properties(${SOURCES_CXX} PROPERTIES",
          "    COMPILE_FLAGS \"-municode\"", ")", ""]
      else lines
    else
      let options := get_compile_options d
      if options ≠ [] then
        lines ++ ["# Compiler options",
          "target_compile_options(" ++ project_name ++ " PRIVATE"] ++
          options.map (fun opt => "    " ++ opt) ++ [")", ""]
      else lines
  let link_options := get_link_options d fs
  let lines := if link_options ≠ [] then
      lines ++ ["# Linker options",
        "target_link_options(" ++ project_name ++ " PRIVATE"] ++
        link_options.map (fun opt => "    " ++ opt) ++ [")", ""]
    else lines
  let libraries := get_libraries d useMapper
  let lines := if libraries ≠ [] then
      lines ++ ["# Link libraries", "target_link_libraries(" ++ project_name] ++
        libraries.map (fun lib => "    " ++ lib) ++ [")", ""]
    else lines
  let lines := lines ++ ["# Output settings",
    "set_target_properties(" ++ project_name ++ " PROPERTIES",
    "    OUTPUT_NAME \"" ++ project_name ++ "\""]
  let lines := if is_dll then
      lines ++ ["    SUFFIX \".dll\"", "    PREFIX \"\""]
    else if is_static_lib then
      lines ++ ["    SUFFIX \".lib\"", "    PREFIX \"\""]
    else lines ++ ["    SUFFIX \".exe\""]
  let lines := lines ++ [")", ""]
  joinLines lines

end CMakeGen

/-! ## Facts about the string primitives -/

theorem charOfNat_toNat {n : Nat} (h : n.isValidChar) : (Char.ofNat n).toNat = n := by
  unfold Char.ofNat
  rw [dif_pos h]
  rfl

theorem charEq_iff_toNat (a b : Char) : a = b ↔ a.toNat = b.toNat := by
  constructor
  · intro h; rw [h]
  · intro h
    exact Char.ext (UInt32.ext h)

theorem toLower_idem (c : Char) : c.toLower.toLower = c.toLower := by
  unfold Char.toLower
  by_cases h : 65 ≤ c.toNat ∧ c.toNat ≤ 90
  · rw [if_pos h]
    have hv : (Char.ofNat (c.toNat + 32)).toNat = c.toNat + 32 :=
      charOfNat_toNat (Or.inl (by omega))
    rw [hv, if_neg (by omega)]
  · simp only [ge_iff_le, if_neg h]

theorem pyWhitespace_iff (c : Char) :
    pyWhitespace c = true ↔
      (c.toNat = 32 ∨ c.toNat = 9 ∨ c.toNat = 10 ∨ c.toNat = 13 ∨
        c.toNat = 11 ∨ c.toNat = 12) := by
  unfold pyWhitespace
  simp only [Bool.or_eq_true, decide_eq_true_eq]
  rw [charEq_iff_toNat c ' ', charEq_iff_toNat c '\t', charEq_iff_toNat c '\n',
    charEq_iff_toNat c '\r', charEq_iff_toNat c '\x0b', charEq_iff_toNat c '\x0c']
  simp only [show (' ').toNat = 32 from rfl, show ('\t').toNat = 9 from rfl,
    show ('\n').toNat = 10 from rfl, show ('\r').toNat = 13 from rfl,
    show ('\x0b').toNat = 11 from rfl, show ('\x0c').toNat = 12 from rfl]
  tauto

theorem pyWhitespace_toLower (c : Char) :
    pyWhitespace c.toLower = pyWhitespace c := by
  unfold Char.toLower
  by_cases h : 65 ≤ c.toNat ∧ c.toNat ≤ 90
  · rw [if_pos h]
    have hv : (Char.ofNat (c.toNat + 32)).toNat = c.toNat + 32 :=
      charOfNat_toNat (Or.inl (by omega))
    have h1 : pyWhitespace (Char.ofNat (c.toNat + 32)) = false := by
      have : ¬ pyWhitespace (Char.ofNat (c.toNat + 32)) = true := by
        rw [pyWhitespace_iff, hv]; omega
      exact Bool.not_eq_true _ |>.mp this
    have h2 : pyWhitespace c = false := by
      have : ¬ pyWhitespace c = true := by rw [pyWhitespace_iff]; omega
      exact Bool.not_eq_true _ |>.mp this
    rw [h1, h2]
  · rw [if_neg h]

theorem lowerChars_idem (l : List Char) : lowerChars (lowerChars l) = lowerChars l := by
  unfold lowerChars
  rw [List.map_map]
  apply List.map_congr_left
  intro c _
  exact toLower_idem c

theorem pyLower_idem (s : String) : pyLower (pyLower s) = pyLower s := by
  unfold pyLower
  exact congrArg String.mk (lowerChars_idem s.data)

theorem replaceFuel_congr (pat repl : List Char) :
    ∀ n m (l : List Char), l.length ≤ n → l.length ≤ m →
      replaceFuel pat repl n l = replaceFuel pat repl m l := by
  intro n
  induction n with
  | zero =>
    intro m l hn _
    have : l = [] := List.eq_nil_of_length_eq_zero (Nat.le_zero.mp hn)
    subst this
    cases m <;> rfl
  | succ n ih =>
    intro m l hn hm
    cases l with
    | nil => cases m <;> rfl
    | cons c cs =>
      cases m with
      | zero => simp at hm
      | succ m' =>
        simp only [replaceFuel]
        by_cases hc : pat ≠ [] ∧ startsWithChars pat (c :: cs) = true
        · rw [if_pos hc, if_pos hc]
          congr 1
          apply ih
          · have hp : 1 ≤ pat.length := List.length_pos.mpr hc.1
            simp only [List.length_drop, List.length_cons]
            simp only [List.length_cons] at hn
            omega
          · have hp : 1 ≤ pat.length := List.length_pos.mpr hc.1
            simp only [List.length_drop, List.length_cons]
            simp only [List.length_cons] at hm
            omega
        · rw [if_neg hc, if_neg hc]
          congr 1
          apply ih
          · simp only [List.length_cons] at hn; omega
          · simp only [List.length_cons] at hm; omega

theorem replaceChars_cons (pat repl : List Char) (c : Char) (cs : List Char) :
    replaceChars pat repl (c :: cs) =
      if pat ≠ [] ∧ startsWithChars pat (c :: cs) = true then
        repl ++ replaceChars pat repl ((c :: cs).drop pat.length)
      else c :: replaceChars pat repl cs := by
  unfold replaceChars
  simp only [List.length_cons, replaceFuel]
  by_cases hc : pat ≠ [] ∧ startsWithChars pat (c :: cs) = true
  · rw [if_pos hc, if_pos hc]
    congr 1
    apply replaceFuel_congr
    · have hp : 1 ≤ pat.length := List.length_pos.mpr hc.1
      simp only [List.length_drop, List.length_cons]
      omega
    · exact Nat.le_refl _
  · rw [if_neg hc, if_neg hc]

theorem startsWithChars_length {pat l : List Char}
    (h : startsWithChars pat l = true) : pat.length ≤ l.length := by
  induction pat generalizing l with
  | nil => simp
  | cons p ps ih =>
    cases l with
    | nil => simp [startsWithChars] at h
    | cons c cs =>
      simp only [startsWithChars, Bool.and_eq_true] at h
      simpa [List.length_cons] using ih h.2

theorem startsWithChars_append {pat l : List Char} (t : List Char)
    (h : startsWithChars pat l = true) : startsWithChars pat (l ++ t) = true := by
  induction pat generalizing l with
  | nil => simp [startsWithChars]
  | cons p ps ih =>
    cases l with
    | nil => simp [startsWithChars] at h
    | cons c cs =>
      simp only [startsWithChars, Bool.and_eq_true] at h
      simp only [List.cons_append, startsWithChars, Bool.and_eq_true]
      exact ⟨h.1, ih h.2⟩

theorem startsLib_append (w : List Char)
    (h : startsWithChars ".lib".data (w ++ ".lib".data) = true) :
    w = [] ∨ startsWithChars ".lib".data w = true := by
  match w with
  | [] => exact Or.inl rfl
  | [a] =>
    exfalso
    simp [show (".lib".data) = ['.', 'l', 'i', 'b'] from rfl, startsWithChars] at h
  | [a, b] =>
    exfalso
    simp [show (".lib".data) = ['.', 'l', 'i', 'b'] from rfl, startsWithChars] at h
  | [a, b, c] =>
    exfalso
    simp [show (".lib".data) = ['.', 'l', 'i', 'b'] from rfl, startsWithChars] at h
  | a :: b :: c :: d :: rest =>
    right
    simp only [show (".lib".data) = ['.', 'l', 'i', 'b'] from rfl, List.cons_append,
      startsWithChars, Bool.and_eq_true] at h ⊢
    exact ⟨h.1, h.2.1, h.2.2.1, h.2.2.2.1, trivial⟩

theorem replaceLib_append_aux :
    ∀ n (w : List Char), w.length ≤ n →
      replaceChars ".lib".data [] (w ++ ".lib".data) = replaceChars ".lib".data [] w := by
  intro n
  induction n with
  | zero =>
    intro w hw
    have : w = [] := List.eq_nil_of_length_eq_zero (Nat.le_zero.mp hw)
    subst this
    decide
  | succ n ih =>
    intro w hw
    cases w with
    | nil => decide
    | cons c cs =>
      simp only [List.length_cons] at hw
      rw [List.cons_append, replaceChars_cons, replaceChars_cons]
      by_cases hsw : startsWithChars ".lib".data (c :: cs) = true
      · have hne : (".lib".data) ≠ [] := by decide
        have hsw2 : startsWithChars ".lib".data ((c :: cs) ++ ".lib".data) = true :=
          startsWithChars_append _ hsw
        rw [if_pos ⟨hne, by rw [← List.cons_append]; exact hsw2⟩, if_pos ⟨hne, hsw⟩]
        have hlen : (".lib".data).length ≤ (c :: cs).length := startsWithChars_length hsw
        rw [← List.cons_append, List.drop_append_of_le_length hlen]
        simp only [List.nil_append]
        apply ih
        have : (".lib".data).length = 4 := rfl
        simp only [List.length_drop, List.length_cons]
        omega
      · have hsw2 : ¬ startsWithChars ".lib".data ((c :: cs) ++ ".lib".data) = true := by
          intro hcon
          rcases startsLib_append _ hcon with h1 | h1
          · exact List.cons_ne_nil c cs h1
          · exact hsw h1
        rw [if_neg (by rw [← List.cons_append]; exact fun hc => hsw2 hc.2),
          if_neg (fun hc => hsw hc.2)]
        rw [List.cons_append] at *
        congr 1
        exact ih cs (by omega)

theorem replaceLib_append (w : List Char) :
    replaceChars ".lib".data [] (w ++ ".lib".data) = replaceChars ".lib".data [] w :=
  replaceLib_append_aux w.length w (Nat.le_refl _)

theorem stripTrailing_noop (y : List Char)
    (h : y = [] ∨ ∃ c, y.getLast? = some c ∧ pyWhitespace c = false) :
    (y.reverse.dropWhile pyWhitespace).reverse = y := by
  rcases h with rfl | ⟨c, hc, hw⟩
  · rfl
  · have hrev : y.reverse.head? = some c := by
      rw [List.head?_reverse]; exact hc
    cases hyr : y.reverse with
    | nil => simp [hyr] at hrev
    | cons d ds =>
      rw [hyr] at hrev
      simp only [List.head?_cons, Option.some.injEq] at hrev
      subst hrev
      rw [List.dropWhile_cons, if_neg (by rw [hw]; simp)]
      rw [← hyr, List.reverse_reverse]

theorem dropWhile_ne_nil_of_getLast (x : List Char) (c : Char)
    (hc : x.getLast? = some c) (hw : pyWhitespace c = false) :
    x.dropWhile pyWhitespace ≠ [] := by
  intro hnil
  have hall := List.dropWhile_eq_nil_iff.mp hnil
  have hmem : c ∈ x := List.mem_of_mem_getLast? hc
  rw [hall c hmem] at hw
  exact Bool.true_eq_false.mp hw

theorem getLast?_dropWhile (x : List Char) :
    x.dropWhile pyWhitespace ≠ [] →
      (x.dropWhile pyWhitespace).getLast? = x.getLast? := by
  intro hne
  conv_rhs => rw [← List.takeWhile_append_dropWhile pyWhitespace x]
  rw [List.getLast?_append]
  cases hd : (x.dropWhile pyWhitespace).getLast? with
  | none => exact absurd (List.getLast?_eq_none_iff.mp hd) hne
  | some c => simp [hd]

theorem stripChars_append_lib (x : List Char)
    (h : x = [] ∨ ∃ c, x.getLast? = some c ∧ pyWhitespace c = false) :
    stripChars (x ++ ".lib".data) = stripChars x ++ ".lib".data := by
  rcases h with rfl | ⟨c, hc, hw⟩
  · decide
  · unfold stripChars
    have hne : x.dropWhile pyWhitespace ≠ [] := dropWhile_ne_nil_of_getLast x c hc hw
    have h1 : (x ++ ".lib".data).dropWhile pyWhitespace =
        x.dropWhile pyWhitespace ++ ".lib".data := by
      rw [List.dropWhile_append]
      rw [if_neg (by simpa [List.isEmpty_iff] using hne)]
    rw [h1]
    set z := x.dropWhile pyWhitespace with hz
    have hzl : z.getLast? = some c := by
      rw [hz, getLast?_dropWhile x hne, hc]
    have h2 : ((z ++ ".lib".data).reverse.dropWhile pyWhitespace).reverse
        = z ++ ".lib".data := by
      apply stripTrailing_noop
      right
      exact ⟨'b', by rw [List.getLast?_append]; rfl, by decide⟩
    have h3 : (z.reverse.dropWhile pyWhitespace).reverse = z :=
      stripTrailing_noop z (Or.inr ⟨c, hzl, hw⟩)
    rw [h2, h3]

theorem occursIn_singleton (c : Char) (l : List Char) :
    occursIn [c] l = l.contains c := by
  induction l with
  | nil => rfl
  | cons d ds ih =>
    simp only [occursIn, startsWithChars, Bool.and_true, List.contains_cons]
    rw [ih, Bool.eq_iff_iff]
    simp only [Bool.or_eq_true, decide_eq_true_eq, beq_iff_eq]

theorem afterLast_state (sep : Char) (acc : List Char) (b : List Char)
    (hb : ∀ c ∈ b, c ≠ sep) :
    b.foldl (fun acc c => if c = sep then [] else acc ++ [c]) acc = acc ++ b := by
  induction b generalizing acc with
  | nil => simp
  | cons d ds ih =>
    simp only [List.foldl_cons]
    rw [if_neg (hb d (List.mem_cons_self d ds))]
    rw [ih (acc ++ [d]) (fun c hc => hb c (List.mem_cons_of_mem d hc))]
    simp

theorem afterLast_append (sep : Char) (a b : List Char) (hb : ∀ c ∈ b, c ≠ sep) :
    afterLast sep (a ++ b) = afterLast sep a ++ b := by
  unfold afterLast
  rw [List.foldl_append]
  exact afterLast_state sep _ b hb

theorem contains_append {α : Type} [BEq α] (a b : List α) (c : α) :
    (a ++ b).contains c = (a.contains c || b.contains c) := by
  induction a with
  | nil => simp
  | cons d ds ih => simp [List.contains_cons, ih, Bool.or_assoc]

theorem map_library_eq_data (s : String) : map_library s = mapLibData s.data := by
  unfold map_library mapLibData pyStrip pyLower pyContains pyReplace
  simp only [occursIn_singleton]
  rw [apply_ite String.data]

theorem mapLibData_append_lib (l : List Char)
    (h : l = [] ∨ ∃ c, l.getLast? = some c ∧ pyWhitespace c = false) :
    mapLibData (l ++ ".lib".data) = mapLibData l := by
  unfold mapLibData
  have hlow : lowerChars (l ++ ".lib".data) = lowerChars l ++ ".lib".data := by
    unfold lowerChars
    rw [List.map_append]
    congr 1
  have hx : lowerChars l = [] ∨
      ∃ c, (lowerChars l).getLast? = some c ∧ pyWhitespace c = false := by
    rcases h with rfl | ⟨c, hc, hw⟩
    · left; rfl
    · right
      refine ⟨c.toLower, ?_, ?_⟩
      · unfold lowerChars
        rw [List.getLast?_map, hc]
        rfl
      · rw [pyWhitespace_toLower]; exact hw
  have hstrip : stripChars (lowerChars (l ++ ".lib".data)) =
      stripChars (lowerChars l) ++ ".lib".data := by
    rw [hlow]
    exact stripChars_append_lib _ hx
  rw [hstrip]
  have hslash : (stripChars (lowerChars l) ++ ".lib".data).contains '/'
      = (stripChars (lowerChars l)).contains '/' := by
    rw [contains_append, show ((".lib".data).contains '/') = false from by decide,
      Bool.or_false]
  have hbslash : (stripChars (lowerChars l) ++ ".lib".data).contains '\\'
      = (stripChars (lowerChars l)).contains '\\' := by
    rw [contains_append, show ((".lib".data).contains '\\') = false from by decide,
      Bool.or_false]
  rw [hslash, hbslash]
  by_cases hc : ((stripChars (lowerChars l)).contains '/' ||
      (stripChars (lowerChars l)).contains '\\') = true
  · rw [if_pos hc, if_pos hc]
    rw [afterLast_append '/' _ _ (by decide),
      afterLast_append '\\' _ _ (by decide), replaceLib_append]
  · rw [if_neg hc, if_neg hc, replaceLib_append]

theorem noTrailingWs_spec (s : String) (h : noTrailingWs s = true) :
    s.data = [] ∨ ∃ c, s.data.getLast? = some c ∧ pyWhitespace c = false := by
  unfold noTrailingWs at h
  cases hl : s.data.getLast? with
  | none => exact Or.inl (List.getLast?_eq_none_iff.mp hl)
  | some c =>
    right
    rw [hl] at h
    simp only [Bool.not_eq_true'] at h
    exact ⟨c, rfl, h⟩

theorem map_library_suffix (s : String) (h : noTrailingWs s = true) :
    map_library (s ++ ".lib") = map_library s := by
  rw [map_library_eq_data, map_library_eq_data, String.data_append]
  exact mapLibData_append_lib s.data (noTrailingWs_spec s h)

theorem map_library_lower (s : String) :
    map_library (pyLower s) = map_library s := by
  rw [map_library_eq_data, map_library_eq_data]
  show mapLibData (lowerChars s.data) = mapLibData s.data
  unfold mapLibData
  rw [lowerChars_idem]

/-- C7, counterexample.  The claim "translating an already-translated
available name yields that same name" fails at `d3dcompiler`: it translates
to `d3dcompiler_47`, but `d3dcompiler_47` has no entry of its own and
translates to `None`.  The universally-quantified decoration-insensitivity
also fails for a name whose suffix-stripped form ends in whitespace:
`"kernel32 .lib"` normalizes to `"kernel32 "` (trailing space kept, because
`strip()` runs before the suffix removal) and misses the table, while its
suffix-stripped lower-cased form `"kernel32 "` translates to `kernel32`. -/
theorem map_library_idempotence_cex :
    (map_library "d3dcompiler" = some "d3dcompiler_47" ∧
      map_library "d3dcompiler_47" = none) ∧
    (map_library "kernel32 .lib" = none ∧
      map_library "kernel32 " = some "kernel32") :=
  ⟨⟨by decide, by decide⟩, by decide, by decide⟩

/-- C7, amended.  Library translation is insensitive to decoration in the
following exact sense: lower-casing the argument never changes the result;
appending a `.lib` suffix never changes the result provided the name does not
end in whitespace; `map_library "Ws2_32.lib"` equals `map_library "ws2_32"`;
and translating an already-translated available name yields that same name
for every translation output except `"d3dcompiler_47"` (which has no mapping
entry of its own and translates to `None`). -/
theorem map_library_decoration_insensitive :
    (∀ s : String, map_library (pyLower s) = map_library s) ∧
    (∀ s : String, noTrailingWs s = true → map_library (s ++ ".lib") = map_library s) ∧
    map_library "Ws2_32.lib" = map_library "ws2_32" ∧
    (LIBRARY_MAP.all (fun p =>
      match p.2 with
      | some m => m == "d3dcompiler_47" || map_library m == some m
      | none => true)) = true := by
  refine ⟨map_library_lower, map_library_suffix, by decide, by decide⟩

/-- C7, witness for the amended theorem's hypotheses at a concrete input. -/
theorem map_library_decoration_insensitive_witness :
    map_library ("ws2_32" ++ ".lib") = map_library "ws2_32" :=
  map_library_decoration_insensitive.2.1 "ws2_32" (by decide)

/-! ## `sln_parser.py` — `SlnParser` -/

/-! ### Facts about the queue sort and the Kahn loop state -/

theorem insertStable_perm (lt : α → α → Bool) (x : α) (l : List α) :
    (insertStable lt x l).Perm (x :: l) := by
  induction l with
  | nil => exact List.Perm.refl _
  | cons y ys ih =>
    simp only [insertStable]
    by_cases h : lt y x = true
    · rw [if_pos h]
      exact ((ih.cons y).trans (List.Perm.swap x y ys))
    · rw [if_neg h]

theorem pySortBy_perm (lt : α → α → Bool) (l : List α) :
    (pySortBy lt l).Perm l := by
  induction l with
  | nil => exact List.Perm.refl _
  | cons x xs ih => exact (insertStable_perm lt x _).trans (ih.cons x)

theorem processNeighbors_fst (ns : List String) (f : String → Int) (q : List String) :
    ∀ x, (processNeighbors ns f q).1 x = f x - (ns.count x : Int) := by
  induction ns generalizing f q with
  | nil => intro x; simp [processNeighbors]
  | cons nb rest ih =>
    intro x
    simp only [processNeighbors, eq_self_iff_true, if_true]
    by_cases h : f nb - 1 = 0
    · rw [if_pos h, ih]
      by_cases hx : x = nb
      · subst hx
        simp only [eq_self_iff_true, if_true, List.count_cons_self]
        push_cast
        omega
      · simp only [if_neg hx, List.count_cons_of_ne hx]
    · rw [if_neg h, ih]
      by_cases hx : x = nb
      · subst hx
        simp only [eq_self_iff_true, if_true, List.count_cons_self]
        push_cast
        omega
      · simp only [if_neg hx, List.count_cons_of_ne hx]

theorem processNeighbors_snd (ns : List String) (f : String → Int) (q : List String) :
    ∃ newly : List String,
      (processNeighbors ns f q).2 = q ++ newly ∧ newly.Nodup ∧
      ∀ x, x ∈ newly ↔ (1 ≤ f x ∧ f x ≤ (ns.count x : Int)) := by
  induction ns generalizing f q with
  | nil =>
    refine ⟨[], by simp [processNeighbors], List.nodup_nil, ?_⟩
    intro x
    simp only [List.not_mem_nil, false_iff, List.count_nil, Nat.cast_zero]
    omega
  | cons nb rest ih =>
    simp only [processNeighbors, eq_self_iff_true, if_true]
    by_cases h : f nb - 1 = 0
    · rw [if_pos h]
      obtain ⟨newly, hq, hnd, hch⟩ :=
        ih (fun x => if x = nb then f x - 1 else f x) (q ++ [nb])
      refine ⟨nb :: newly, ?_, ?_, ?_⟩
      · rw [hq, List.append_assoc, List.singleton_append]
      · refine List.nodup_cons.mpr ⟨?_, hnd⟩
        intro hmem
        have h1 := ((hch nb).mp hmem).1
        simp only [eq_self_iff_true, if_true] at h1
        omega
      · intro x
        simp only [List.mem_cons]
        rw [hch x]
        by_cases hx : x = nb
        · subst hx
          simp only [eq_self_iff_true, if_true, List.count_cons_self, true_or, true_iff]
          push_cast
          omega
        · simp only [if_neg hx, List.count_cons_of_ne hx]
          constructor
          · rintro (h1 | h1)
            · exact absurd h1 hx
            · exact h1
          · exact fun h1 => Or.inr h1
    · rw [if_neg h]
      obtain ⟨newly, hq, hnd, hch⟩ :=
        ih (fun x => if x = nb then f x - 1 else f x) q
      refine ⟨newly, hq, hnd, ?_⟩
      intro x
      rw [hch x]
      by_cases hx : x = nb
      · subst hx
        simp only [eq_self_iff_true, if_true, List.count_cons_self]
        push_cast
        omega
      · simp only [if_neg hx, List.count_cons_of_ne hx]

theorem count_map_const {α : Type} [DecidableEq α] (g x : α) (l : List β) :
    (l.map (fun _ => g)).count x = if g = x then l.length else 0 := by
  by_cases h : g = x
  · subst h
    rw [if_pos rfl]
    have h1 : List.count g (l.map fun _ => g) = (l.map fun _ => g).length :=
      List.count_eq_length.mpr (by
        intro b hb
        rcases List.mem_map.mp hb with ⟨_, _, rfl⟩
        rfl)
    rw [h1, List.length_map]
  · rw [if_neg h, List.count_eq_zero.mpr]
    intro hmem
    rcases List.mem_map.mp hmem with ⟨_, _, he⟩
    exact h he

theorem sum_map_indicator {α : Type} [DecidableEq α] (n : α → Nat) (x : α) :
    ∀ L : List α, L.Nodup →
      (L.map (fun g => if g = x then n g else 0)).sum = if x ∈ L then n x else 0 := by
  intro L
  induction L with
  | nil => simp
  | cons g L' ih =>
    intro hnd
    have hL' : L'.Nodup := (List.nodup_cons.mp hnd).2
    have hg : g ∉ L' := (List.nodup_cons.mp hnd).1
    simp only [List.map_cons, List.sum_cons, ih hL']
    by_cases hgx : g = x
    · subst hgx
      rw [if_pos rfl, if_neg (fun h => hg h), if_pos (List.mem_cons_self g L')]
      omega
    · rw [if_neg hgx]
      by_cases hx : x ∈ L'
      · rw [if_pos hx, if_pos (List.mem_cons_of_mem g hx)]
        omega
      · rw [if_neg hx, if_neg (by
          intro hmem
          rcases List.mem_cons.mp hmem with h1 | h1
          · exact hgx h1.symm
          · exact hx h1)]

theorem count_adj (s : Sln) (R : List String) (hR : R.Nodup) (c x : String) :
    (adj s R c).count x =
      if x ∈ R then ((depsOf s x).filter (fun d => d = c && R.contains d)).length
      else 0 := by
  unfold adj
  rw [List.count_flatMap]
  have hcong : R.map (List.count x ∘ fun g =>
        ((depsOf s g).filter (fun d => d = c && R.contains d)).map (fun _ => g)) =
      R.map (fun g =>
        if g = x then ((depsOf s g).filter (fun d => d = c && R.contains d)).length
        else 0) := by
    apply List.map_congr_left
    intro g _
    simp only [Function.comp_apply]
    exact count_map_const g x _
  rw [hcong]
  exact sum_map_indicator _ x R hR

theorem mem_of_contains {α : Type} [BEq α] [LawfulBEq α] {l : List α} {a : α}
    (h : l.contains a = true) : a ∈ l := List.elem_iff.mp h

theorem contains_of_mem {α : Type} [BEq α] [LawfulBEq α] {l : List α} {a : α}
    (h : a ∈ l) : l.contains a = true := List.elem_iff.mpr h

theorem contains_eq_false {α : Type} [BEq α] [LawfulBEq α] {l : List α} {a : α}
    (h : a ∉ l) : l.contains a = false := by
  cases hc : l.contains a with
  | false => rfl
  | true => exact absurd (mem_of_contains hc) h

theorem length_filter_ne_count {α : Type} [BEq α] [LawfulBEq α] (m : List α) (c : α) :
    (m.filter (fun d => !(d == c))).length = m.length - m.count c ∧
      m.count c ≤ m.length := by
  induction m with
  | nil => simp
  | cons d ds ih =>
    by_cases h : d == c
    · have hdc : d = c := eq_of_beq h
      subst hdc
      rw [List.filter_cons_of_neg (by simp), List.count_cons_self]
      simp only [List.length_cons]
      omega
    · have hne : ¬ (c = d) := fun he => h (by rw [he]; exact beq_self_eq_true d)
      rw [List.filter_cons_of_pos (by simpa using h),
        List.count_cons_of_ne hne]
      simp only [List.length_cons]
      omega

theorem pend_append (s : Sln) (R P : List String) (c g : String)
    (hcR : c ∈ R) (hcP : c ∉ P) :
    pend s R (P ++ [c]) g = pend s R P g - (depsOf s g).count c ∧
      (depsOf s g).count c ≤ pend s R P g := by
  unfold pend
  have hpred : (fun d => R.contains d && !((P ++ [c]).contains d)) =
      (fun d => !(d == c) && (R.contains d && !(P.contains d))) := by
    funext d
    rw [contains_append]
    simp only [List.contains_cons, List.contains_nil, Bool.or_false]
    cases hrd : R.contains d <;> cases hpd : P.contains d <;>
      cases hdc : (d == c) <;> rfl
  rw [hpred, ← List.filter_filter]
  have hcnt : (depsOf s g).count c =
      ((depsOf s g).filter (fun d => R.contains d && !(P.contains d))).count c := by
    rw [List.count_filter]
    rw [Bool.and_eq_true, Bool.not_eq_true']
    exact ⟨contains_of_mem hcR, contains_eq_false hcP⟩
  rw [hcnt]
  exact length_filter_ne_count _ c

theorem pend_nil_of_not_mem (s : Sln) (R P : List String) (c g : String)
    (hg : pend s R P g = 0) (hcR : c ∈ R) (hcP : c ∉ P) :
    pend s R (P ++ [c]) g = 0 := by
  have h := pend_append s R P c g hcR hcP
  omega

theorem chainClosed_nil (s : Sln) (R : List String) : ChainClosed s R [] := by
  intro p₁ c p₂ heq
  exact absurd heq.symm (List.append_ne_nil_of_right_ne_nil p₁ (List.cons_ne_nil c p₂))

theorem chainClosed_append (s : Sln) (R P : List String) (c : String)
    (h : ChainClosed s R P) (hc : ∀ d, d ∈ depsOf s c → d ∈ R → d ∈ P) :
    ChainClosed s R (P ++ [c]) := by
  intro p₁ x p₂ heq d hd hdR
  rcases List.eq_nil_or_concat p₂ with rfl | ⟨t, y, rfl⟩
  · have := List.append_inj' heq (by rfl)
    obtain ⟨h1, h2⟩ := this
    have hx : c = x := by injection h2
    subst hx
    rw [← h1]
    exact hc d hd hdR
  · rw [List.concat_eq_append] at heq
    have heq2 : P ++ [c] = (p₁ ++ x :: t) ++ [y] := by
      rw [heq]
      simp
    obtain ⟨h1, _⟩ := List.append_inj' heq2 rfl
    exact h p₁ x t h1 d hd hdR

theorem pend_zero_of_chainClosed (s : Sln) (R P : List String)
    (h : ChainClosed s R P) (x : String) (hx : x ∈ P) : pend s R P x = 0 := by
  obtain ⟨p₁, p₂, rfl⟩ := List.append_of_mem hx
  unfold pend
  rw [List.length_eq_zero, List.filter_eq_nil_iff]
  intro d hd hcon
  rw [Bool.and_eq_true, Bool.not_eq_true'] at hcon
  have hdP₁ : d ∈ p₁ := h p₁ x p₂ rfl d hd (mem_of_contains hcon.1)
  have : (p₁ ++ x :: p₂).contains d = true :=
    contains_of_mem (List.mem_append_left _ hdP₁)
  rw [this] at hcon
  exact Bool.true_eq_false.mp hcon.2

theorem kahnLoop_spec (s : Sln) (relevant : List Proj) (R : List String)
    (hRnd : R.Nodup) :
    ∀ (fuel : Nat) (q : List String) (f : String → Int) (P : List String),
      P ⊆ R → P.Nodup → ChainClosed s R P →
      q ⊆ R → q.Nodup → (∀ x ∈ q, x ∉ P) →
      (∀ g ∈ R, f g = (pend s R P g : Int)) →
      (∀ x ∈ q, pend s R P x = 0) →
      (∀ g ∈ R, g ∉ P → g ∉ q → pend s R P g ≠ 0) →
      ∃ P', kahnLoop s relevant R fuel q f (P.map (projOf relevant)) =
          P'.map (projOf relevant) ∧
        P' ⊆ R ∧ P'.Nodup ∧ ChainClosed s R P' ∧ (∃ Q, P' = P ++ Q) ∧
        (R.length ≤ fuel + P.length → ∀ g ∈ R, g ∉ P' → pend s R P' g ≠ 0) := by
  intro fuel
  induction fuel with
  | zero =>
    intro q f P hPR hPnd hPcc _ _ _ _ _ _
    refine ⟨P, rfl, hPR, hPnd, hPcc, ⟨[], (List.append_nil P).symm⟩, ?_⟩
    intro hlen g hgR hgP
    exfalso
    have hsub : P.Subperm R := hPnd.subperm hPR
    have hperm : P.Perm R := hsub.perm_of_length_le (by simpa using hlen)
    exact hgP (hperm.mem_iff.mpr hgR)
  | succ fuel ih =>
    intro q f P hPR hPnd hPcc hqR hqnd hqP hf hq0 h5
    rw [kahnLoop]
    cases hsort : pySortBy (fun a b => strLt (nameOf relevant a) (nameOf relevant b)) q with
    | nil =>
      have hqe : q = [] := by
        have hperm := pySortBy_perm
          (fun a b => strLt (nameOf relevant a) (nameOf relevant b)) q
        rw [hsort] at hperm
        exact (hperm.symm).eq_nil
      subst hqe
      refine ⟨P, rfl, hPR, hPnd, hPcc, ⟨[], (List.append_nil P).symm⟩, ?_⟩
      intro _ g hgR hgP
      exact h5 g hgR hgP (List.not_mem_nil g)
    | cons c rest =>
      have hperm : (c :: rest).Perm q := by
        have h := pySortBy_perm
          (fun a b => strLt (nameOf relevant a) (nameOf relevant b)) q
        rw [hsort] at h
        exact h
      have hcq : c ∈ q := hperm.subset (List.mem_cons_self c rest)
      have hcrnd : (c :: rest).Nodup := hperm.nodup_iff.mpr hqnd
      have hcR : c ∈ R := hqR hcq
      have hcP : c ∉ P := hqP c hcq
      have hpendc : pend s R P c = 0 := hq0 c hcq
      have hrestq : ∀ x ∈ rest, x ∈ q :=
        fun x hx => hperm.subset (List.mem_cons_of_mem c hx)
      have hcrest : c ∉ rest := (List.nodup_cons.mp hcrnd).1
      have hrestnd : rest.Nodup := (List.nodup_cons.mp hcrnd).2
      have hP₁R : (P ++ [c]) ⊆ R := by
        intro x hx
        rcases List.mem_append.mp hx with h1 | h1
        · exact hPR h1
        · rw [List.mem_singleton.mp h1]; exact hcR
      have hP₁nd : (P ++ [c]).Nodup := by
        rw [List.nodup_append]
        refine ⟨hPnd, List.nodup_singleton c, ?_⟩
        intro x hx1 hx2
        rw [List.mem_singleton.mp hx2] at hx1
        exact hcP hx1
      have hdepc : ∀ d, d ∈ depsOf s c → d ∈ R → d ∈ P := by
        intro d hd hdR
        by_contra hdP
        have hnil : (depsOf s c).filter (fun d => R.contains d && !(P.contains d)) = [] :=
          List.length_eq_zero.mp hpendc
        have hmem := List.filter_eq_nil_iff.mp hnil d hd
        rw [contains_of_mem hdR, contains_eq_false hdP] at hmem
        simp at hmem
      have hP₁cc : ChainClosed s R (P ++ [c]) := chainClosed_append s R P c hPcc hdepc
      obtain ⟨newly, hsnd, hnnd, hnch⟩ := processNeighbors_snd (adj s R c) f rest
      have hfst := processNeighbors_fst (adj s R c) f rest
      have hcount : ∀ g, (adj s R c).count g =
          if g ∈ R then (depsOf s g).count c else 0 := by
        intro g
        rw [count_adj s R hRnd c g]
        by_cases hg : g ∈ R
        · rw [if_pos hg, if_pos hg]
          have hfe : (depsOf s g).filter (fun d => d = c && R.contains d) =
              (depsOf s g).filter (fun d => d == c) := by
            apply List.filter_congr
            intro d _
            by_cases hdc : d = c
            · subst hdc
              simp [hcR]
            · simp [hdc]
          rw [hfe, ← List.countP_eq_length_filter]
          rfl
        · rw [if_neg hg, if_neg hg]
      have hpend₁ : ∀ g, pend s R (P ++ [c]) g = pend s R P g - (depsOf s g).count c :=
        fun g => (pend_append s R P c g hcR hcP).1
      have hpendle : ∀ g, (depsOf s g).count c ≤ pend s R P g :=
        fun g => (pend_append s R P c g hcR hcP).2
      have hf₁ : ∀ g ∈ R, (processNeighbors (adj s R c) f rest).1 g =
          (pend s R (P ++ [c]) g : Int) := by
        intro g hg
        rw [hfst g, hf g hg, hcount g, if_pos hg, hpend₁ g]
        have := hpendle g
        omega
      have hnewlyR : ∀ x ∈ newly, x ∈ R := by
        intro x hx
        have h1 := (hnch x).mp hx
        by_contra hxR
        rw [hcount x, if_neg hxR] at h1
        have h2 := h1.1
        have h3 := h1.2
        push_cast at h3
        omega
      have hnewlyP : ∀ x ∈ newly, x ∉ P ∧ x ≠ c := by
        intro x hx
        have h1 := (hnch x).mp hx
        have hxR := hnewlyR x hx
        have hfx : f x = (pend s R P x : Int) := hf x hxR
        constructor
        · intro hxP
          rw [hfx, pend_zero_of_chainClosed s R P hPcc x hxP] at h1
          have h2 := h1.1
          omega
        · intro hxc
          subst hxc
          rw [hfx, hpendc] at h1
          have h2 := h1.1
          omega
      have hnewlyrest : ∀ x ∈ newly, x ∉ rest := by
        intro x hx hxrest
        have h1 := (hnch x).mp hx
        rw [hf x (hnewlyR x hx), hq0 x (hrestq x hxrest)] at h1
        have h2 := h1.1
        omega
      have hq'R : (rest ++ newly) ⊆ R := by
        intro x hx
        rcases List.mem_append.mp hx with h1 | h1
        · exact hqR (hrestq x h1)
        · exact hnewlyR x h1
      have hq'nd : (rest ++ newly).Nodup := by
        rw [List.nodup_append]
        exact ⟨hrestnd, hnnd, fun x hxr hxn => hnewlyrest x hxn hxr⟩
      have hq'P₁ : ∀ x ∈ rest ++ newly, x ∉ P ++ [c] := by
        intro x hx hxP₁
        rcases List.mem_append.mp hxP₁ with h1 | h1
        · rcases List.mem_append.mp hx with h2 | h2
          · exact hqP x (hrestq x h2) h1
          · exact (hnewlyP x h2).1 h1
        · have hxc : x = c := List.mem_singleton.mp h1
          subst hxc
          rcases List.mem_append.mp hx with h2 | h2
          · exact hcrest h2
          · exact (hnewlyP x h2).2 rfl
      have hq'0 : ∀ x ∈ rest ++ newly, pend s R (P ++ [c]) x = 0 := by
        intro x hx
        rcases List.mem_append.mp hx with h1 | h1
        · exact pend_nil_of_not_mem s R P c x (hq0 x (hrestq x h1)) hcR hcP
        · have h1' := (hnch x).mp h1
          have hxR := hnewlyR x h1
          rw [hcount x, if_pos hxR] at h1'
          have hfx := hf x hxR
          have hp := hpend₁ x
          have hple := hpendle x
          have h2 := h1'.2
          rw [hfx] at h2
          have h2' : pend s R P x ≤ (depsOf s x).count c := by exact_mod_cast h2
          omega
      have h5₁ : ∀ g ∈ R, g ∉ P ++ [c] → g ∉ rest ++ newly →
          pend s R (P ++ [c]) g ≠ 0 := by
        intro g hgR hgP₁ hgq' hcon
        have hgP : g ∉ P := fun h => hgP₁ (List.mem_append_left _ h)
        have hgc : g ≠ c := fun he =>
          hgP₁ (by rw [he]; exact List.mem_append_right _ (List.mem_singleton_self c))
        have hgrest : g ∉ rest := fun h => hgq' (List.mem_append_left _ h)
        have hgnew : g ∉ newly := fun h => hgq' (List.mem_append_right _ h)
        by_cases hp0 : pend s R P g = 0
        · have hgq : g ∉ q := by
            intro hgq
            rcases List.mem_cons.mp (hperm.mem_iff.mpr hgq) with h1 | h1
            · exact hgc h1
            · exact hgrest h1
          exact h5 g hgR hgP hgq hp0
        · apply hgnew
          rw [hnch g]
          have hfg := hf g hgR
          have hp := hpend₁ g
          have hple := hpendle g
          rw [hcount g, if_pos hgR, hfg]
          constructor
          · omega
          · omega
      obtain ⟨P', heq, hP'R, hP'nd, hP'cc, ⟨Q, hPQ⟩, hterm⟩ :=
        ih (rest ++ newly) (processNeighbors (adj s R c) f rest).1 (P ++ [c])
          hP₁R hP₁nd hP₁cc hq'R hq'nd hq'P₁ hf₁ hq'0 h5₁
      refine ⟨P', ?_, hP'R, hP'nd, hP'cc, ⟨c :: Q, by rw [hPQ]; simp⟩, ?_⟩
      · show kahnLoop s relevant R fuel (processNeighbors (adj s R c) f rest).2
          (processNeighbors (adj s R c) f rest).1
          (P.map (projOf relevant) ++ [projOf relevant c]) = P'.map (projOf relevant)
        rw [hsnd, show P.map (projOf relevant) ++ [projOf relevant c] =
          (P ++ [c]).map (projOf relevant) by rw [List.map_append, List.map_singleton]]
        exact heq
      · intro hlen
        apply hterm
        rw [List.length_append, List.length_singleton]
        omega

theorem get_build_order_eq (s : Sln) (ptype : Option String) :
    get_build_order s ptype =
      if (kahnK s ptype).length ≠ (relevantProjects s ptype).length then
        kahnK s ptype ++
          (relevantProjects s ptype).filter (fun p => !((kahnK s ptype).contains p))
      else kahnK s ptype := rfl

theorem projOf_mem {relevant : List Proj} {g : String}
    (h : g ∈ relevant.map (fun p => p.guid)) :
    projOf relevant g ∈ relevant ∧ (projOf relevant g).guid = g := by
  rcases List.mem_map.mp h with ⟨p, hp, rfl⟩
  unfold projOf
  cases hfind : relevant.find? (fun p' => p'.guid = p.guid) with
  | none =>
    exfalso
    have := List.find?_eq_none.mp hfind p hp
    simp at this
  | some a =>
    constructor
    · exact List.mem_of_find?_eq_some hfind
    · have := List.find?_some hfind
      simpa using this

theorem res_filter_perm (rel res : List Proj) (hrelnd : rel.Nodup)
    (hresnd : res.Nodup) (hsub : res ⊆ rel) :
    (res ++ rel.filter (fun p => !(res.contains p))).Perm rel := by
  have h1 : res.Perm (rel.filter (fun p => res.contains p)) := by
    apply (List.perm_ext_iff_of_nodup hresnd (hrelnd.filter _)).mpr
    intro a
    simp only [List.mem_filter]
    constructor
    · intro ha; exact ⟨hsub ha, contains_of_mem ha⟩
    · intro ha; exact mem_of_contains ha.2
  exact (h1.append_right _).trans (List.filter_append_perm _ rel)

theorem pair_sublist_of_mem_left {α : Type} (b a : α) (u w : List α) (hb : b ∈ u) :
    [b, a].Sublist (u ++ a :: w) := by
  obtain ⟨u₁, u₂, rfl⟩ := List.append_of_mem hb
  have h2 : [a].Sublist (u₂ ++ a :: w) :=
    ((List.nil_sublist w).cons₂ a).trans (List.sublist_append_right u₂ (a :: w))
  have h4 : [b, a].Sublist (u₁ ++ (b :: (u₂ ++ a :: w))) :=
    (h2.cons₂ b).trans (List.sublist_append_right u₁ _)
  rw [show (u₁ ++ b :: u₂) ++ a :: w = u₁ ++ (b :: (u₂ ++ a :: w)) by simp]
  exact h4

theorem complete_of_acyclic (s : Sln) (ptype : Option String) (P' : List String)
    (hacyc : ∀ g, ¬ Relation.TransGen (EdgeRel s ptype) g g)
    (hterm : ∀ g ∈ Rof s ptype, g ∉ P' → pend s (Rof s ptype) P' g ≠ 0) :
    ∀ g ∈ Rof s ptype, g ∈ P' := by
  intro g₀ hg₀R
  by_contra hg₀
  have hstep : ∀ x, x ∈ Rof s ptype → x ∉ P' →
      ∃ d, (d ∈ Rof s ptype ∧ d ∉ P') ∧ EdgeRel s ptype d x := by
    intro x hxR hxP
    have hne := hterm x hxR hxP
    have hfne : ((depsOf s x).filter
        (fun d => (Rof s ptype).contains d && !(P'.contains d))) ≠ [] := by
      intro hnil
      exact hne (by unfold pend; rw [hnil]; rfl)
    obtain ⟨d, hd⟩ := List.exists_mem_of_ne_nil _ hfne
    have hdf := List.mem_filter.mp hd
    have hcond := hdf.2
    rw [Bool.and_eq_true, Bool.not_eq_true'] at hcond
    have hdR : d ∈ Rof s ptype := mem_of_contains hcond.1
    have hdP : d ∉ P' := fun h => by
      rw [contains_of_mem h] at hcond
      exact Bool.true_eq_false.mp hcond.2
    exact ⟨d, ⟨hdR, hdP⟩, ⟨hdR, hxR, hdf.1⟩⟩
  let S : Set String := {x | x ∈ Rof s ptype ∧ x ∉ P'}
  let F : {x // x ∈ S} → {x // x ∈ S} := fun x =>
    ⟨Classical.choose (hstep x.1 x.2.1 x.2.2),
      (Classical.choose_spec (hstep x.1 x.2.1 x.2.2)).1⟩
  let seq : Nat → {x // x ∈ S} := fun n => F^[n] ⟨g₀, ⟨hg₀R, hg₀⟩⟩
  have hedge : ∀ n, EdgeRel s ptype (seq (n + 1)).1 (seq n).1 := by
    intro n
    have hit : seq (n + 1) = F (seq n) :=
      Function.iterate_succ_apply' F n ⟨g₀, ⟨hg₀R, hg₀⟩⟩
    rw [hit]
    exact (Classical.choose_spec (hstep (seq n).1 (seq n).2.1 (seq n).2.2)).2
  have htrans : ∀ m n : Nat, m < n →
      Relation.TransGen (EdgeRel s ptype) (seq n).1 (seq m).1 := by
    intro m n
    induction n with
    | zero => intro h; exact absurd h (Nat.not_lt_zero m)
    | succ n ihn =>
      intro hmn
      rcases Nat.lt_succ_iff_lt_or_eq.mp hmn with h1 | h1
      · exact Relation.TransGen.head (hedge n) (ihn h1)
      · subst h1
        exact Relation.TransGen.single (hedge m)
  have hSfin : S.Finite :=
    (List.finite_toSet (Rof s ptype)).subset (fun x hx => hx.1)
  have hfin : Finite {x // x ∈ S} := hSfin.to_subtype
  obtain ⟨m, n, hne, heq⟩ := Finite.exists_ne_map_eq_of_infinite seq
  rcases Nat.lt_or_ge m n with h1 | h1
  · have ht := htrans m n h1
    rw [heq] at ht
    exact hacyc _ ht
  · have h2 : n < m := Nat.lt_of_le_of_ne h1 (Ne.symm hne)
    have ht := htrans n m h2
    rw [heq] at ht
    exact hacyc _ ht

theorem relevant_nodup (s : Sln) (ptype : Option String) (hwf : WFSln s) :
    (Rof s ptype).Nodup := by
  have hsub : (Rof s ptype).Sublist (s.projects.map (fun p => p.guid)) := by
    unfold Rof relevantProjects
    cases ptype with
    | none => exact (List.filter_sublist _).map _
    | some t => exact (List.filter_sublist _).map _
  exact hwf.sublist hsub

theorem kahnK_spec (s : Sln) (ptype : Option String) (hwf : WFSln s) :
    ∃ P', kahnK s ptype = P'.map (projOf (relevantProjects s ptype)) ∧
      P' ⊆ Rof s ptype ∧ P'.Nodup ∧ ChainClosed s (Rof s ptype) P' ∧
      (∀ g ∈ Rof s ptype, g ∉ P' → pend s (Rof s ptype) P' g ≠ 0) := by
  have hRnd := relevant_nodup s ptype hwf
  have hpend_empty : ∀ g ∈ Rof s ptype,
      inDeg s (Rof s ptype) g = (pend s (Rof s ptype) ([] : List String) g : Int) := by
    intro g hg
    unfold inDeg pend
    rw [if_pos (contains_of_mem hg)]
    have hfe : (fun d => (Rof s ptype).contains d && !(([] : List String).contains d)) =
        (fun d => (Rof s ptype).contains d) := by
      funext d
      simp
    rw [hfe]
  have hq0R : q0of s ptype ⊆ Rof s ptype :=
    fun x hx => (List.mem_filter.mp hx).1
  obtain ⟨P', heq, hP'R, hP'nd, hP'cc, _, hterm⟩ :=
    kahnLoop_spec s (relevantProjects s ptype) (Rof s ptype) hRnd
      (relevantProjects s ptype).length (q0of s ptype) (inDeg s (Rof s ptype)) []
      (List.nil_subset _) List.nodup_nil (chainClosed_nil s _)
      hq0R (hRnd.filter _)
      (fun x _ => List.not_mem_nil x)
      hpend_empty
      (by
        intro x hx
        have hm := List.mem_filter.mp hx
        have h0 : inDeg s (Rof s ptype) x = 0 := by simpa using hm.2
        have := hpend_empty x (hq0R hx)
        rw [h0] at this
        exact_mod_cast this.symm)
      (by
        intro g hgR _ hgq hp0
        apply hgq
        rw [q0of, List.mem_filter]
        refine ⟨hgR, ?_⟩
        have := hpend_empty g hgR
        rw [hp0] at this
        simpa using this)
  refine ⟨P', ?_, hP'R, hP'nd, hP'cc, ?_⟩
  · rw [kahnK, ← heq, List.map_nil]
  · apply hterm
    rw [List.length_nil, Rof, List.length_map]
    omega

/-- C1.  `get_build_order` returns a permutation of the filtered project
list, and, when the filtered dependency subgraph has no directed cycle, every
declared dependency edge inside the filtered set is respected: the dependency
appears strictly before the dependent project. -/
theorem get_build_order_perm_topo (s : Sln) (ptype : Option String)
    (hwf : WFSln s) :
    (get_build_order s ptype).Perm (relevantProjects s ptype) ∧
    ((∀ g, ¬ Relation.TransGen (EdgeRel s ptype) g g) →
      ∀ A B, A ∈ relevantProjects s ptype → B ∈ relevantProjects s ptype →
        B.guid ∈ depsOf s A.guid →
        [B, A].Sublist (get_build_order s ptype)) := by
  obtain ⟨P', heq, hP'R, hP'nd, hP'cc, hterm⟩ := kahnK_spec s ptype hwf
  have hRnd := relevant_nodup s ptype hwf
  have hrelnd : (relevantProjects s ptype).Nodup := hRnd.of_map
  have hmapguid : (kahnK s ptype).map (fun p => p.guid) = P' := by
    rw [heq, List.map_map]
    have h1 : P'.map ((fun p => p.guid) ∘ projOf (relevantProjects s ptype)) =
        P'.map (fun g => g) :=
      List.map_congr_left (fun g hg => (projOf_mem (hP'R hg)).2)
    rw [h1, List.map_id']
  have hresnd : (kahnK s ptype).Nodup := by
    apply List.Nodup.of_map (fun p => p.guid)
    rw [hmapguid]
    exact hP'nd
  have hressub : kahnK s ptype ⊆ relevantProjects s ptype := by
    intro x hx
    rw [heq] at hx
    rcases List.mem_map.mp hx with ⟨g, hg, rfl⟩
    exact (projOf_mem (hP'R hg)).1
  constructor
  · rw [get_build_order_eq]
    by_cases h : (kahnK s ptype).length ≠ (relevantProjects s ptype).length
    · rw [if_pos h]
      exact res_filter_perm _ _ hrelnd hresnd hressub
    · rw [if_neg h]
      push_neg at h
      exact (hresnd.subperm hressub).perm_of_length_le (le_of_eq h.symm)
  · intro hacyc A B hA hB hdep
    have hcompl : ∀ g ∈ Rof s ptype, g ∈ P' :=
      complete_of_acyclic s ptype P' hacyc hterm
    have hP'perm : P'.Perm (Rof s ptype) :=
      (List.perm_ext_iff_of_nodup hP'nd hRnd).mpr
        (fun g => ⟨fun h => hP'R h, fun h => hcompl g h⟩)
    have hlen : (kahnK s ptype).length = (relevantProjects s ptype).length := by
      rw [heq, List.length_map, hP'perm.length_eq, Rof, List.length_map]
    have hgbo : get_build_order s ptype = kahnK s ptype := by
      rw [get_build_order_eq, if_neg (by omega)]
    rw [hgbo]
    have hAg : A.guid ∈ Rof s ptype := List.mem_map_of_mem (fun p => p.guid) hA
    have hBg : B.guid ∈ Rof s ptype := List.mem_map_of_mem (fun p => p.guid) hB
    obtain ⟨p₁, p₂, hsplit⟩ := List.append_of_mem (hcompl A.guid hAg)
    have hBp₁ : B.guid ∈ p₁ := hP'cc p₁ A.guid p₂ hsplit B.guid hdep hBg
    have hprojA : projOf (relevantProjects s ptype) A.guid = A := by
      have hm := projOf_mem hAg
      exact List.inj_on_of_nodup_map hRnd hm.1 hA hm.2
    have hprojB : projOf (relevantProjects s ptype) B.guid = B := by
      have hm := projOf_mem hBg
      exact List.inj_on_of_nodup_map hRnd hm.1 hB hm.2
    rw [heq, hsplit, List.map_append, List.map_cons, hprojA]
    apply pair_sublist_of_mem_left
    rw [← hprojB]
    exact List.mem_map_of_mem _ hBp₁

/-- C1, witness: the theorem applied to a concrete three-project solution
(`A` depends on `B`, `B` depends on `C`). -/
theorem get_build_order_perm_topo_witness :
    (get_build_order
        ⟨[⟨"A", "A", "C++"⟩, ⟨"B", "B", "C++"⟩, ⟨"C", "C", "C++"⟩],
          [("A", ["B"]), ("B", ["C"])]⟩ (some "C++")).Perm
      (relevantProjects
        ⟨[⟨"A", "A", "C++"⟩, ⟨"B", "B", "C++"⟩, ⟨"C", "C", "C++"⟩],
          [("A", ["B"]), ("B", ["C"])]⟩ (some "C++")) :=
  (get_build_order_perm_topo _ (some "C++") (by decide)).1

/-- C6.  Evaluating `get_build_order` on a solution whose two C++ projects
depend on each other: Kahn's algorithm processes nothing (both in-degrees are
1), and the cycle fallback appends both projects in declaration order.  The
call returns normally — the embedding is a total function, mirroring the
absence of any raise in the source — and the source emits no warning of any
kind at the cycle fallback (`sln_parser.py` lines 205–211 contain no logging
or warning call), contrary to the claim's required cycle warning. -/
theorem build_order_cycle_eval :
    get_build_order
        ⟨[⟨"AAAA", "ProjA", "C++"⟩, ⟨"BBBB", "ProjB", "C++"⟩],
          [("AAAA", ["BBBB"]), ("BBBB", ["AAAA"])]⟩ (some "C++") =
      [⟨"AAAA", "ProjA", "C++"⟩, ⟨"BBBB", "ProjB", "C++"⟩] := by decide

theorem depsOf_removeDepEdges (s : Sln) (X : String) (g : String) :
    depsOf (removeDepEdges s X) g = (depsOf s g).filter (fun d => !(d == X)) := by
  unfold depsOf removeDepEdges
  induction s.deps with
  | nil => rfl
  | cons a t ih =>
    by_cases h : a.1 = g
    · rw [List.map_cons,
        List.find?_cons_of_pos _ (by simpa using h),
        List.find?_cons_of_pos _ (by simpa using h)]
      rfl
    · rw [List.map_cons,
        List.find?_cons_of_neg _ (by simpa using h),
        List.find?_cons_of_neg _ (by simpa using h)]
      exact ih

theorem filter_absorb {α : Type} [BEq α] [LawfulBEq α] (l : List α) (p : α → Bool)
    (X : α) (h : p X = false) :
    (l.filter (fun d => !(d == X))).filter p = l.filter p := by
  rw [List.filter_filter]
  apply List.filter_congr
  intro d _
  by_cases hdX : d = X
  · subst hdX
    rw [h]
    simp
  · have : (d == X) = false := beq_eq_false_iff_ne.mpr hdX
    rw [this]
    simp

theorem adj_removeDepEdges (s : Sln) (R : List String) (X : String)
    (hX : X ∉ R) (c : String) :
    adj (removeDepEdges s X) R c = adj s R c := by
  unfold adj
  have hfun : (fun g => ((depsOf (removeDepEdges s X) g).filter
        (fun d => d = c && R.contains d)).map (fun _ => g)) =
      (fun g => ((depsOf s g).filter (fun d => d = c && R.contains d)).map
        (fun _ => g)) := by
    funext g
    rw [depsOf_removeDepEdges, filter_absorb _ _ X
      (by rw [contains_eq_false hX, Bool.and_false])]
  rw [hfun]

theorem inDeg_removeDepEdges (s : Sln) (R : List String) (X : String)
    (hX : X ∉ R) :
    inDeg (removeDepEdges s X) R = inDeg s R := by
  funext g
  unfold inDeg
  rw [depsOf_removeDepEdges, filter_absorb _ _ X (contains_eq_false hX)]

theorem kahnLoop_congr (s₁ s₂ : Sln) (relevant : List Proj) (R : List String)
    (hadj : ∀ c, adj s₁ R c = adj s₂ R c) :
    ∀ fuel q f res, kahnLoop s₁ relevant R fuel q f res =
      kahnLoop s₂ relevant R fuel q f res := by
  intro fuel
  induction fuel with
  | zero => intro q f res; rfl
  | succ fuel ih =>
    intro q f res
    rw [kahnLoop, kahnLoop]
    cases pySortBy (fun a b => strLt (nameOf relevant a) (nameOf relevant b)) q with
    | nil => rfl
    | cons c rest =>
      simp only [hadj, ih]

theorem projByGuid_mem {s : Sln} {g : String}
    (h : g ∈ s.projects.map (fun p => p.guid)) :
    projByGuid s g ∈ s.projects ∧ (projByGuid s g).guid = g := by
  rcases List.mem_map.mp h with ⟨p, hp, rfl⟩
  unfold projByGuid
  cases hfind : s.projects.find? (fun p' => p'.guid = p.guid) with
  | none =>
    exfalso
    have := List.find?_eq_none.mp hfind p hp
    simp at this
  | some a =>
    constructor
    · exact List.mem_of_find?_eq_some hfind
    · have := List.find?_some hfind
      simpa using this

/-- C10.  A dependency edge whose target GUID is not a registered project is
invisible to `get_project_dependencies`, an edge whose target is outside the
filtered registry is invisible to `get_build_order` (removing all such edges
changes neither result), and `get_project_dependencies` only ever returns
registered projects.  Both functions are total (the guarded dict accesses of
the source are modelled by the same membership filters the source applies),
so no such edge can raise. -/
theorem dangling_edges_ignored (s : Sln) (X : String) :
    ((X ∉ s.projects.map (fun p => p.guid)) →
      ∀ g, get_project_dependencies (removeDepEdges s X) g =
        get_project_dependencies s g) ∧
    (∀ ptype, X ∉ Rof s ptype →
      get_build_order (removeDepEdges s X) ptype = get_build_order s ptype) ∧
    (∀ g p, p ∈ get_project_dependencies s g → p ∈ s.projects) := by
  refine ⟨?_, ?_, ?_⟩
  · intro hX g
    unfold get_project_dependencies
    have hp : (removeDepEdges s X).projects = s.projects := rfl
    have hpb : projByGuid (removeDepEdges s X) = projByGuid s := rfl
    rw [hp, hpb, depsOf_removeDepEdges,
      filter_absorb _ _ X (contains_eq_false hX)]
  · intro ptype hX
    have hrel : relevantProjects (removeDepEdges s X) ptype =
        relevantProjects s ptype := rfl
    have hR : Rof (removeDepEdges s X) ptype = Rof s ptype := rfl
    have hin : inDeg (removeDepEdges s X) (Rof s ptype) = inDeg s (Rof s ptype) :=
      inDeg_removeDepEdges s _ X hX
    have hkahn : kahnK (removeDepEdges s X) ptype = kahnK s ptype := by
      unfold kahnK q0of
      rw [hrel, hR, hin]
      exact kahnLoop_congr _ s _ _ (adj_removeDepEdges s _ X hX) _ _ _ _
    rw [get_build_order_eq, get_build_order_eq, hkahn, hrel]
  · intro g p hp
    unfold get_project_dependencies at hp
    rcases List.mem_map.mp hp with ⟨d, hd, rfl⟩
    have hdm := List.mem_filter.mp hd
    exact (projByGuid_mem (mem_of_contains hdm.2)).1

/-- Membership in the global pass of `_find_elements_for_config`: under
distinct element identities, the fold appends exactly the stream elements
whose direct parent has no condition, keeping prior occupants. -/
theorem foldElems_mem (E : List XElem)
    (hE : ((E.map (fun e => e.eid)).Nodup)) :
    ∀ (l acc : List XElem), l ⊆ E → acc ⊆ E → ∀ x,
      (x ∈ l.foldl (fun acc e =>
          if e.parentCond = "" then
            if acc.all (fun r => r.eid != e.eid) then acc ++ [e] else acc
          else acc) acc ↔ x ∈ acc ∨ (x ∈ l ∧ x.parentCond = "")) := by
  intro l
  induction l with
  | nil => intro acc _ _ x; simp
  | cons e rest ih =>
    intro acc hl hacc x
    have heE : e ∈ E := hl (List.mem_cons_self e rest)
    have hrest : rest ⊆ E := fun y hy => hl (List.mem_cons_of_mem e hy)
    rw [List.foldl_cons]
    by_cases hpc : e.parentCond = ""
    · by_cases hall : (acc.all (fun r => r.eid != e.eid)) = true
      · rw [if_pos hpc, if_pos hall]
        have hacc2 : acc ++ [e] ⊆ E := by
          intro y hy
          rcases List.mem_append.mp hy with h | h
          · exact hacc h
          · rw [List.mem_singleton.mp h]; exact heE
        rw [ih (acc ++ [e]) hrest hacc2 x]
        constructor
        · rintro (h | h)
          · rcases List.mem_append.mp h with h | h
            · exact Or.inl h
            · rw [List.mem_singleton.mp h]
              exact Or.inr ⟨List.mem_cons_self _ _, hpc⟩
          · exact Or.inr ⟨List.mem_cons_of_mem _ h.1, h.2⟩
        · rintro (h | ⟨hmem, hx⟩)
          · exact Or.inl (List.mem_append.mpr (Or.inl h))
          · rcases List.mem_cons.mp hmem with rfl | h
            · exact Or.inl (List.mem_append.mpr (Or.inr (List.mem_singleton.mpr rfl)))
            · exact Or.inr ⟨h, hx⟩
      · rw [if_pos hpc, if_neg hall]
        have hin : e ∈ acc := by
          have hne : ¬ (∀ r ∈ acc, (r.eid != e.eid) = true) := by
            intro hc
            exact hall (List.all_eq_true.mpr hc)
          push_neg at hne
          obtain ⟨r, hr, hrne⟩ := hne
          have heq : r.eid = e.eid := by
            by_contra hneq
            exact hrne (bne_iff_ne.mpr hneq)
          have := List.inj_on_of_nodup_map hE (hacc hr) heE heq
          rw [← this]
          exact hr
        rw [ih acc hrest hacc x]
        constructor
        · rintro (h | h)
          · exact Or.inl h
          · exact Or.inr ⟨List.mem_cons_of_mem _ h.1, h.2⟩
        · rintro (h | ⟨hmem, hx⟩)
          · exact Or.inl h
          · rcases List.mem_cons.mp hmem with rfl | h
            · exact Or.inl hin
            · exact Or.inr ⟨h, hx⟩
    · rw [if_neg hpc]
      rw [ih acc hrest hacc x]
      constructor
      · rintro (h | h)
        · exact Or.inl h
        · exact Or.inr ⟨List.mem_cons_of_mem _ h.1, h.2⟩
      · rintro (h | ⟨hmem, hx⟩)
        · exact Or.inl h
        · rcases List.mem_cons.mp hmem with rfl | h
          · exact absurd hx hpc
          · exact Or.inr ⟨h, hx⟩

/-- C2, counterexample: the condition
`'$(Configuration)|$(Platform)'=='Debug|x64'` matched for the requested key
`(Debug, Win32)` — the second disjunct of `_get_condition_match` fires on the
bare configuration-name substring `debug` — although the normalized pair
`'debug|win32'` does not occur in it, so the spec-side matcher rejects it;
consequently a `PropertyGroup` conditioned on `Debug|x64` contributes its
elements when `(Debug, Win32)` is resolved. -/
theorem condition_match_cex :
    get_condition_match "'$(Configuration)|$(Platform)'=='Debug|x64'"
        "Debug" "Win32" = true ∧
    spec_condition_match "'$(Configuration)|$(Platform)'=='Debug|x64'"
        "Debug" "Win32" = false ∧
    (⟨7, "LinkIncremental", "true",
        "'$(Configuration)|$(Platform)'=='Debug|x64'"⟩ : XElem) ∈
      find_elements_for_config
        ⟨[⟨GKind.pg, "'$(Configuration)|$(Platform)'=='Debug|x64'",
            [⟨7, "LinkIncremental", "true",
              "'$(Configuration)|$(Platform)'=='Debug|x64'"⟩]⟩], ".", ".", "app"⟩
        "LinkIncremental" "Debug" "Win32" := by
  refine ⟨by decide, by decide, by decide⟩

/-- C2 (amended).  A scope's condition matches exactly when it is empty, or
its lower-cased text contains the quoted lower-cased
`'configuration|platform'` pair as a substring, or its lower-cased text
contains the lower-cased configuration name alone as a substring; and, for a
well-formed file, an element is contributed exactly when its tag matches and
either its enclosing `ItemDefinitionGroup`/`PropertyGroup` satisfies that
matcher or the element's direct parent carries no `Condition` attribute
(the global pass of `_find_elements_for_config`). -/
theorem condition_scope_amended :
    (∀ condition config platform,
      get_condition_match condition config platform =
        (decide (condition = "") ||
          pyContains (pyLower condition)
            ("'" ++ pyLower config ++ "|" ++ pyLower platform ++ "'") ||
          pyContains (pyLower condition) (pyLower config))) ∧
    (∀ f : VcxFile, WFVcx f → ∀ tag config platform (e : XElem),
      e ∈ find_elements_for_config f tag config platform ↔
        ∃ g, g ∈ f.groups ∧ e ∈ g.elems ∧ e.tag = tag ∧
          (((g.kind = GKind.idg ∨ g.kind = GKind.pg) ∧
              get_condition_match g.cond config platform = true) ∨
            e.parentCond = "")) := by
  constructor
  · intro condition config platform
    unfold get_condition_match
    by_cases h : condition = ""
    · rw [if_pos h, decide_eq_true h]
      rfl
    · rw [if_neg h, decide_eq_false h]
      rfl
  · intro f hwf tag config platform e
    simp only [find_elements_for_config]
    have hsubStream :
        f.groups.flatMap (fun g => g.elems.filter (fun e2 => e2.tag = tag)) ⊆
          f.groups.flatMap (fun g => g.elems) := by
      intro x hx
      rcases List.mem_flatMap.mp hx with ⟨g, hg, hxg⟩
      exact List.mem_flatMap.mpr ⟨g, hg, (List.mem_filter.mp hxg).1⟩
    have hsubAcc :
        ((f.groups.filter (fun g => decide (g.kind = GKind.idg) &&
            get_condition_match g.cond config platform)).flatMap
          (fun g => g.elems.filter (fun e2 => e2.tag = tag)) ++
         (f.groups.filter (fun g => decide (g.kind = GKind.pg) &&
            get_condition_match g.cond config platform)).flatMap
          (fun g => g.elems.filter (fun e2 => e2.tag = tag))) ⊆
          f.groups.flatMap (fun g => g.elems) := by
      intro x hx
      rcases List.mem_append.mp hx with h | h <;>
      · rcases List.mem_flatMap.mp h with ⟨g, hg, hxg⟩
        exact List.mem_flatMap.mpr
          ⟨g, (List.mem_filter.mp hg).1, (List.mem_filter.mp hxg).1⟩
    rw [foldElems_mem (f.groups.flatMap (fun g => g.elems)) hwf _ _
      hsubStream hsubAcc e]
    constructor
    · rintro (h | ⟨hmem, hpc⟩)
      · rcases List.mem_append.mp h with h | h <;>
          rcases List.mem_flatMap.mp h with ⟨g, hg, heg⟩
        · have hg2 := List.mem_filter.mp hg
          have hcond := hg2.2
          rw [Bool.and_eq_true] at hcond
          have he2 := List.mem_filter.mp heg
          exact ⟨g, hg2.1, he2.1, by simpa using he2.2,
            Or.inl ⟨Or.inl (by simpa using hcond.1), hcond.2⟩⟩
        · have hg2 := List.mem_filter.mp hg
          have hcond := hg2.2
          rw [Bool.and_eq_true] at hcond
          have he2 := List.mem_filter.mp heg
          exact ⟨g, hg2.1, he2.1, by simpa using he2.2,
            Or.inl ⟨Or.inr (by simpa using hcond.1), hcond.2⟩⟩
      · rcases List.mem_flatMap.mp hmem with ⟨g, hg, heg⟩
        have he2 := List.mem_filter.mp heg
        exact ⟨g, hg, he2.1, by simpa using he2.2, Or.inr hpc⟩
    · rintro ⟨g, hg, heg, htag, (⟨hkind, hmatch⟩ | hpc)⟩
      · left
        rcases hkind with hk | hk
        · exact List.mem_append.mpr (Or.inl (List.mem_flatMap.mpr
            ⟨g, List.mem_filter.mpr ⟨hg, by
              rw [Bool.and_eq_true]
              exact ⟨by simpa using hk, hmatch⟩⟩,
             List.mem_filter.mpr ⟨heg, by simpa using htag⟩⟩))
        · exact List.mem_append.mpr (Or.inr (List.mem_flatMap.mpr
            ⟨g, List.mem_filter.mpr ⟨hg, by
              rw [Bool.and_eq_true]
              exact ⟨by simpa using hk, hmatch⟩⟩,
             List.mem_filter.mpr ⟨heg, by simpa using htag⟩⟩))
      · right
        exact ⟨List.mem_flatMap.mpr
          ⟨g, hg, List.mem_filter.mpr ⟨heg, by simpa using htag⟩⟩, hpc⟩

/-- C2 (amended), witness: a setting element under an unconditioned group
is contributed via the global pass. -/
theorem condition_scope_amended_witness :
    (⟨3, "SubSystem", "Windows", ""⟩ : XElem) ∈
      find_elements_for_config
        ⟨[⟨GKind.other, "", [⟨3, "SubSystem", "Windows", ""⟩]⟩], ".", ".", "app"⟩
        "SubSystem" "Release" "x64" :=
  (condition_scope_amended.2
      ⟨[⟨GKind.other, "", [⟨3, "SubSystem", "Windows", ""⟩]⟩], ".", ".", "app"⟩
      (by decide) "SubSystem" "Release" "x64"
      ⟨3, "SubSystem", "Windows", ""⟩).mpr
    ⟨⟨GKind.other, "", [⟨3, "SubSystem", "Windows", ""⟩]⟩,
      List.mem_singleton.mpr rfl, List.mem_singleton.mpr rfl, rfl, Or.inr rfl⟩

/-- C3, counterexample: a single matching scope declaring `zdir;adir` in
that order resolves to the list `[adir, zdir]` — `get_include_directories`
sorts the deduplicated set, so the declaration order is not preserved. -/
theorem include_dirs_order_cex :
    get_include_directories
        ⟨[⟨GKind.idg, "",
            [⟨0, "AdditionalIncludeDirectories", "zdir;adir", ""⟩]⟩],
          ".", ".", "app"⟩ "Release" "x64" = ["adir", "zdir"] ∧
    declaredIncludeDirs
        ⟨[⟨GKind.idg, "",
            [⟨0, "AdditionalIncludeDirectories", "zdir;adir", ""⟩]⟩],
          ".", ".", "app"⟩ "Release" "x64" = ["zdir", "adir"] ∧
    (["adir", "zdir"] : List String) ≠ ["zdir", "adir"] := by
  refine ⟨by decide, by decide, by decide⟩

/-- C3 (amended).  The resolved include-directory list is the
lexicographically (code-point) sorted version of the deduplicated
declaration-order list: duplicates are dropped keeping first occurrences,
and the survivors are then reordered into ascending sorted order rather
than kept in declaration order. -/
theorem include_dirs_sorted_dedup (f : VcxFile) (config platform : String) :
    get_include_directories f config platform =
      pySortedStr (declaredIncludeDirs f config platform) := rfl

/-- C4.  `_expand_macros` substitutes the constants `Release` and `x64` for
`$(Configuration)` and `$(Platform)`: the macro table is built from fixed
strings, not from the configuration key being resolved (the function does
not even receive the key), so resolving for `(Debug, Win32)` still expands
`$(Configuration)` to `Release`. -/
theorem expand_macros_hardcoded :
    expand_macros ⟨[], "proj", "sln", "app"⟩ "$(Configuration)" = "Release" ∧
    expand_macros ⟨[], "proj", "sln", "app"⟩ "$(Platform)" = "x64" := by
  refine ⟨by decide, by decide⟩

/-- C9, counterexample: the key `(Release, Win32)` occurs nowhere in the
file — its only condition names `Release|x64` — yet `get_optimization`
returns `-O0`, not the documented release default `-O2`, because the
condition matcher accepts the bare `release` substring and the scope's
`Disabled` text wins; a second file shows the other direction: with no
elements at all, the release-like configuration name `release` (lower case)
falls to the `config == 'Release'` comparison and yields `-O0`. -/
theorem resolution_defaults_cex :
    (∀ g ∈ (⟨[⟨GKind.idg, "'$(Configuration)|$(Platform)'=='Release|x64'",
          [⟨0, "Optimization", "Disabled", ""⟩]⟩], ".", ".", "app"⟩ :
        VcxFile).groups,
      pyContains (pyLower g.cond) "'release|win32'" = false) ∧
    get_optimization
        ⟨[⟨GKind.idg, "'$(Configuration)|$(Platform)'=='Release|x64'",
            [⟨0, "Optimization", "Disabled", ""⟩]⟩], ".", ".", "app"⟩
        "Release" "Win32" = "-O0" ∧
    get_optimization (⟨[], ".", ".", "app"⟩ : VcxFile) "release" "x64" =
      "-O0" := by
  refine ⟨by decide, by decide, by decide⟩

/-- C9 (amended).  When resolution finds no elements for the property tags
(in particular for any file whose scopes contribute nothing for the key),
the getters return their documented defaults without failing: optimization
`-O2` exactly when the configuration string equals `Release` (case-sensitive
equality, not release-likeness) and `-O0` otherwise, subsystem `Console`,
language standard `c++11`; the getters are total functions, mirroring the
raise-free source. -/
theorem resolution_defaults (f : VcxFile) (config platform : String)
    (h1 : find_elements_for_config f "Optimization" config platform = [])
    (h2 : find_elements_for_config f "SubSystem" config platform = [])
    (h3 : find_elements_for_config f "LanguageStandard" config platform = []) :
    get_optimization f config platform =
      (if config = "Release" then "-O2" else "-O0") ∧
    get_subsystem f config platform = "Console" ∧
    get_cpp_standard f config platform = "c++11" := by
  refine ⟨?_, ?_, ?_⟩
  · unfold get_optimization
    rw [h1]
    rfl
  · unfold get_subsystem
    rw [h2]
    rfl
  · unfold get_cpp_standard
    rw [h3]
    rfl

/-- C9 (amended), witness: the empty file at the key `(Debug, Win32)`. -/
theorem resolution_defaults_witness :
    get_optimization (⟨[], ".", ".", "app"⟩ : VcxFile) "Debug" "Win32" =
      (if ("Debug" : String) = "Release" then "-O2" else "-O0") ∧
    get_subsystem (⟨[], ".", ".", "app"⟩ : VcxFile) "Debug" "Win32" =
      "Console" ∧
    get_cpp_standard (⟨[], ".", ".", "app"⟩ : VcxFile) "Debug" "Win32" =
      "c++11" :=
  resolution_defaults ⟨[], ".", ".", "app"⟩ "Debug" "Win32" rfl rfl rfl

/-- C10, witness: a solution with a single project whose dependency list
names an unregistered GUID `"XXXX"`. -/
theorem dangling_edges_ignored_witness :
    get_build_order
        (removeDepEdges ⟨[⟨"AAAA", "ProjA", "C++"⟩], [("AAAA", ["XXXX"])]⟩ "XXXX")
        (some "C++") =
      get_build_order ⟨[⟨"AAAA", "ProjA", "C++"⟩], [("AAAA", ["XXXX"])]⟩
        (some "C++") :=
  (dangling_edges_ignored ⟨[⟨"AAAA", "ProjA", "C++"⟩], [("AAAA", ["XXXX"])]⟩
    "XXXX").2.1 (some "C++") (by decide)

namespace CMakeGen

/-- Membership after the append-if-absent loop
(`for x in l: if x not in defs: defs.append(x)`). -/
theorem foldl_insertIfAbsent_mem (l : List String) :
    ∀ (acc : List String) (x : String),
      x ∈ l.foldl insertIfAbsent acc ↔ x ∈ acc ∨ x ∈ l := by
  induction l with
  | nil => intro acc x; simp
  | cons d rest ih =>
    intro acc x
    rw [List.foldl_cons]
    by_cases hd : (acc.contains d) = true
    · rw [show insertIfAbsent acc d = acc from by
        unfold insertIfAbsent; rw [if_pos hd]]
      rw [ih]
      have hdm : d ∈ acc := mem_of_contains hd
      constructor
      · rintro (h | h)
        · exact Or.inl h
        · exact Or.inr (List.mem_cons_of_mem _ h)
      · rintro (h | h)
        · exact Or.inl h
        · rcases List.mem_cons.mp h with rfl | h
          · exact Or.inl hdm
          · exact Or.inr h
    · rw [show insertIfAbsent acc d = acc ++ [d] from by
        unfold insertIfAbsent; rw [if_neg hd]]
      rw [ih]
      constructor
      · rintro (h | h)
        · rcases List.mem_append.mp h with h | h
          · exact Or.inl h
          · rw [List.mem_singleton.mp h]
            exact Or.inr (List.mem_cons_self _ _)
        · exact Or.inr (List.mem_cons_of_mem _ h)
      · rintro (h | h)
        · exact Or.inl (List.mem_append.mpr (Or.inl h))
        · rcases List.mem_cons.mp h with rfl | h
          · exact Or.inl (List.mem_append.mpr (Or.inr (List.mem_singleton.mpr rfl)))
          · exact Or.inr h

/-- C8.  The translated preprocessor-definition list never contains a
deny-listed token — the raw input is filtered before the essential
definitions (none of which are deny-listed) are appended — and always
contains the build-mode tokens for the requested configuration: `_DEBUG`
and `DEBUG` when the configuration is `Debug`, `NDEBUG` otherwise, whether
or not they were present in the raw input. -/
theorem compile_definitions_policy (d : ProjData) :
    (∀ t ∈ SKIP_DEFINITIONS, t ∉ get_compile_definitions d) ∧
    (if d.config.getD "Release" = "Debug" then
      "_DEBUG" ∈ get_compile_definitions d ∧
        "DEBUG" ∈ get_compile_definitions d
    else "NDEBUG" ∈ get_compile_definitions d) := by
  constructor
  · intro t ht hmem
    simp only [get_compile_definitions] at hmem
    rw [foldl_insertIfAbsent_mem] at hmem
    rcases hmem with h | h
    · have hfilter := (List.mem_filter.mp h).2
      rw [contains_of_mem ht] at hfilter
      simp at hfilter
    · by_cases hc : d.config.getD "Release" = "Debug"
      · rw [if_pos hc] at h
        have hforb : SKIP_DEFINITIONS.all (fun t2 =>
            !((["WIN32", "_WINDOWS", "UNICODE", "_UNICODE", "SECURITY_WIN32",
              "GUID_NULL=IID_NULL"] ++ ["_DEBUG", "DEBUG"]).contains t2)) =
            true := by decide
        have hf := List.all_eq_true.mp hforb t ht
        rw [contains_of_mem h] at hf
        simp at hf
      · rw [if_neg hc] at h
        have hforb : SKIP_DEFINITIONS.all (fun t2 =>
            !((["WIN32", "_WINDOWS", "UNICODE", "_UNICODE", "SECURITY_WIN32",
              "GUID_NULL=IID_NULL"] ++ ["NDEBUG"]).contains t2)) = true := by
          decide
        have hf := List.all_eq_true.mp hforb t ht
        rw [contains_of_mem h] at hf
        simp at hf
  · by_cases hc : d.config.getD "Release" = "Debug"
    · rw [if_pos hc]
      constructor
      · simp only [get_compile_definitions]
        rw [foldl_insertIfAbsent_mem]
        right
        rw [if_pos hc]
        decide
      · simp only [get_compile_definitions]
        rw [foldl_insertIfAbsent_mem]
        right
        rw [if_pos hc]
        decide
    · rw [if_neg hc]
      simp only [get_compile_definitions]
      rw [foldl_insertIfAbsent_mem]
      right
      rw [if_neg hc]
      decide

/-- C8, witness: a record whose raw definitions contain the deny-listed
`_MBCS`; the translated list drops it and gains `NDEBUG`. -/
theorem compile_definitions_policy_witness :
    "_MBCS" ∉ get_compile_definitions
        ⟨some "app", none, none, none, none, none, none,
          some ["_MBCS", "MYAPP_FOO"], none, none, none, none, none, none,
          none, none⟩ ∧
    "NDEBUG" ∈ get_compile_definitions
        ⟨some "app", none, none, none, none, none, none,
          some ["_MBCS", "MYAPP_FOO"], none, none, none, none, none, none,
          none, none⟩ := by
  obtain ⟨h1, h2⟩ := compile_definitions_policy
    ⟨some "app", none, none, none, none, none, none,
      some ["_MBCS", "MYAPP_FOO"], none, none, none, none, none, none,
      none, none⟩
  rw [if_neg (by decide :
    ¬ (⟨some "app", none, none, none, none, none, none,
        some ["_MBCS", "MYAPP_FOO"], none, none, none, none, none, none,
        none, none⟩ : ProjData).config.getD "Release" = "Debug")] at h2
  exact ⟨h1 "_MBCS" (by decide), h2⟩

/-- C5, counterexample: two runs of `generate` on the same project-data
record, against filesystems that differ only in the text of `main.cpp`
(`wmain` vs `main`), produce different output — the generator reads the
disk through `_detect_wide_entry_point`, so its output is not a function of
the structured input alone. -/
theorem generate_disk_dependent_cex :
    detect_wide_entry_point
        ⟨some "app", none, none, none, none, none, none, none, none, none,
          none, some ["main.cpp"], none, none, none, some "."⟩
        [("./main.cpp", "int wmain(void);")] = true ∧
    detect_wide_entry_point
        ⟨some "app", none, none, none, none, none, none, none, none, none,
          none, some ["main.cpp"], none, none, none, some "."⟩
        [("./main.cpp", "int main(void);")] = false ∧
    generate
        ⟨some "app", none, none, none, none, none, none, none, none, none,
          none, some ["main.cpp"], none, none, none, some "."⟩
        true [("./main.cpp", "int wmain(void);")] ≠
      generate
        ⟨some "app", none, none, none, none, none, none, none, none, none,
          none, some ["main.cpp"], none, none, none, some "."⟩
        true [("./main.cpp", "int main(void);")] := by
  refine ⟨by decide, by decide, by decide⟩

/-- C5 (amended).  `generate` is a function of the structured project data,
the mapper flag, and the wide-entry-point detection result read from disk:
whenever the two filesystems make `_detect_wide_entry_point` agree (in
particular whenever the probed source files have equal contents), the
generated text is byte-identical. -/
theorem generate_pure_given_detection (d : ProjData) (u : Bool)
    (fs1 fs2 : List (String × String))
    (h : detect_wide_entry_point d fs1 = detect_wide_entry_point d fs2) :
    generate d u fs1 = generate d u fs2 := by
  unfold generate get_link_options
  rw [h]

/-- C5 (amended), witness: an absent file and a file without a wide entry
point both make detection `false`, and the outputs coincide. -/
theorem generate_pure_given_detection_witness :
    generate
        ⟨some "app", none, none, none, none, none, none, none, none, none,
          none, some ["main.cpp"], none, none, none, some "."⟩
        true [("./main.cpp", "int main(void);")] =
      generate
        ⟨some "app", none, none, none, none, none, none, none, none, none,
          none, some ["main.cpp"], none, none, none, some "."⟩
        true [] :=
  generate_pure_given_detection _ true _ _ (by decide)

end CMakeGen

end DockPiler
